import Mathlib

/-!
Verification development for a WebDAV adapter over a flat object store
(`src/main.py`, class `HuggingFaceWebDAV` plus the FastAPI dispatcher
`handle_webdav`).

Modelling conventions (shallow embedding):
* Python strings are modelled as `List Nat` of code points (`Str`); all the
  strings the program manipulates are byte strings or ASCII, so code points
  and UTF-8 bytes coincide on every input the theorems touch.
* The external object store (`HfFileSystem`, an out-of-scope collaborator per
  the design) is modelled as an association list from keys to contents;
  `fs.exists`, `fs.isdir`, `fs.ls`, `fs.open(..'rb'/'wb')`, `fs.delete` become
  `existsS`, `isdirS`, `lsS`, `lookupS`/`writeS`, `deleteS`.
* Each handler returns its HTTP response, the resulting store, and a trace of
  store-layer events, so that ordering claims ("read, then write, then
  delete, then invalidate") and "the store layer is never reached" claims are
  expressible.
* Python exceptions from the store are modelled by the only failure the store
  model has: reading or stat-ing an absent key.  A handler's `except` branch
  becomes the corresponding error response.
-/

/-- Python strings, as lists of code points. -/
abbrev Str := List Nat

/-- Code points of a Lean string literal; used only to write ASCII constants. -/
def strL (s : String) : Str := s.data.map (fun ch => ch.toNat)

/-- Model of Python `str.strip('/')`: drop slashes from both ends. -/
def stripSlashes (p : Str) : Str :=
  ((p.dropWhile (fun b => b == 47)).reverse.dropWhile (fun b => b == 47)).reverse

/-- Model of `str.split(c)` (full split, keeps empty pieces, `"".split = [""]`). -/
def splitChar (c : Nat) : Str → List Str
  | [] => [[]]
  | b :: rest =>
    if b == c then [] :: splitChar c rest
    else
      match splitChar c rest with
      | [] => [[b]]
      | p :: ps => (b :: p) :: ps

/-- Model of Python `c.join(parts)`. -/
def joinChar (c : Nat) : List Str → Str
  | [] => []
  | [p] => p
  | p :: q :: ps => p ++ c :: joinChar c (q :: ps)

/-- Model of `os.path.basename` (posix): the part after the last slash. -/
def basename (p : Str) : Str := (p.reverse.takeWhile (fun b => !(b == 47))).reverse

/-- Model of `os.path.dirname` (posix): the part before the last slash, `[]`
if there is none.  (The program only applies it to keys of the form
`datasets/...`, which never start with a slash, where this model is exact.) -/
def dirname (p : Str) : Str := ((p.reverse.dropWhile (fun b => !(b == 47))).drop 1).reverse

/-- Decimal rendering, fuel-driven so that it reduces in the kernel; the
fuel is always sufficient (`n` needs at most `n+1` digit steps). -/
def natStrAux : Nat → Nat → Str
  | 0, _ => []
  | fuel + 1, n => if n < 10 then [48 + n] else natStrAux fuel (n / 10) ++ [48 + n % 10]

/-- Decimal rendering of a natural number, as Python `str(n)`. -/
def natStr (n : Nat) : Str := natStrAux (n + 1) n

/-- Is `b` one of urllib's always-safe bytes (letters, digits, `_.-~`)?
`urllib.parse.quote(part, safe='')` leaves exactly these unencoded. -/
def alwaysSafe (b : Nat) : Bool :=
  (65 ≤ b && b ≤ 90) || (97 ≤ b && b ≤ 122) || (48 ≤ b && b ≤ 57) ||
  b == 95 || b == 46 || b == 45 || b == 126

/-- Upper-case hex digit of `n < 16`, as used by `urllib.parse.quote`. -/
def hexUp (n : Nat) : Nat := if n < 10 then 48 + n else 55 + n

/-- Percent-encoding of one byte, as `urllib.parse.quote` with `safe=''`. -/
def quoteByte (b : Nat) : Str :=
  if alwaysSafe b then [b] else [37, hexUp (b / 16), hexUp (b % 16)]

/-- Model of `urllib.parse.quote(part, safe='')` at the byte level. -/
def quote : Str → Str
  | [] => []
  | b :: rest => quoteByte b ++ quote rest

/-- Is `b` an ASCII hex digit (either case)? -/
def hexDigit (b : Nat) : Bool :=
  (48 ≤ b && b ≤ 57) || (65 ≤ b && b ≤ 70) || (97 ≤ b && b ≤ 102)

/-- Value of a hex digit. -/
def hexVal (b : Nat) : Nat :=
  if b ≤ 57 then b - 48 else if b ≤ 70 then b - 55 else b - 87

/-- Model of `urllib.parse.unquote` at the byte level: decode `%XY` escapes,
leave malformed escapes (and everything else) alone. -/
def unquote : Str → Str
  | [] => []
  | b :: h1 :: h2 :: rest2 =>
    if b == 37 && hexDigit h1 && hexDigit h2 then
      (hexVal h1 * 16 + hexVal h2) :: unquote rest2
    else b :: unquote (h1 :: h2 :: rest2)
  | b :: rest => b :: unquote rest

/-- `HuggingFaceWebDAV._encode_path` (src/main.py:20): split on `/`,
percent-encode each non-empty segment with `safe=''`, rejoin; identity on
the empty path. -/
def encode_path (p : Str) : Str :=
  if p = [] then p
  else joinChar 47 ((splitChar 47 p).map (fun part => if part = [] then part else quote part))

/-- `HuggingFaceWebDAV._decode_path` (src/main.py:39): `unquote(path) if path else path`. -/
def decode_path (p : Str) : Str := if p = [] then p else unquote p

/-- Does `s` contain `pat` as a contiguous substring (Python `pat in s`)? -/
def hasSub (pat : Str) : Str → Bool
  | [] => pat.isPrefixOf []
  | b :: t => pat.isPrefixOf (b :: t) || hasSub pat t

/-- The dangerous patterns of `_validate_path`: `'..'`, `'\\'`, `'\x00'`. -/
def dangerous_patterns : List Str := [[46, 46], [92], [0]]

/-- `HuggingFaceWebDAV._validate_path` (src/main.py:43): accept the empty
path; reject paths containing `..`, a backslash or NUL; reject absolute
paths (`os.path.isabs` on posix: a leading `/`). -/
def validate_path (p : Str) : Bool :=
  if p = [] then true
  else if dangerous_patterns.any (fun pat => hasSub pat p) then false
  else if p.headI == 47 then false
  else true

/-- The name of a directory marker file. -/
def keepName : Str := strL ".keep"

/-- The external object store (`HfFileSystem`), modelled as an association
list from keys to file contents.  Keys are unique: `writeS` overwrites. -/
abbrev Store := List (Str × Str)

/-- The keys present in a store. -/
def keysOf (s : Store) : List Str := s.map Prod.fst

/-- Model of reading an object (`fs.open(key, 'rb')`); `none` models the
exception raised for a missing (or directory) key. -/
def lookupS : Store → Str → Option Str
  | [], _ => none
  | (k, v) :: t, p => if k = p then some v else lookupS t p

/-- Model of deleting an object (`fs.delete(key)`). -/
def deleteS (s : Store) (p : Str) : Store := s.filter (fun e => !(e.1 == p))

/-- Model of writing an object whole (`fs.open(key, 'wb')` + `write`). -/
def writeS (s : Store) (p c : Str) : Store := (p, c) :: deleteS s p

/-- Model of `fs.isdir(key)`: the store has no native directories, a
directory exists exactly when some object lies strictly below it. -/
def isdirS (s : Store) (p : Str) : Bool := s.any (fun e => (p ++ [47]).isPrefixOf e.1)

/-- Model of `fs.exists(key)`: an object at the key, or a directory there. -/
def existsS (s : Store) (p : Str) : Bool := (lookupS s p).isSome || isdirS s p

/-- First path segment (up to the first slash). -/
def firstSeg (p : Str) : Str := p.takeWhile (fun b => !(b == 47))

/-- The immediate child of directory `p` that the key `k` witnesses, if any. -/
def childNameOf (p k : Str) : Option Str :=
  if (p ++ [47]).isPrefixOf k then some (p ++ [47] ++ firstSeg (k.drop (p.length + 1)))
  else none

/-- The immediate children of directory `p` (full keys, deduplicated);
models the names returned by `fs.ls(p)`. -/
def lsNames (s : Store) (p : Str) : List Str :=
  (s.filterMap (fun e => childNameOf p e.1)).dedup

/-- One entry of an `fs.ls(path, detail=True)` listing.  `lastModified`
carries the timestamp already rendered as a string (RFC-1123 rendering by
`_format_time` is abstracted); the model store reports none. -/
structure FInfo where
  name : Str
  isDir : Bool
  size : Nat
  lastModified : Option Str
deriving DecidableEq, Repr

/-- Detail record for one child, as `fs.ls(.., detail=True)` reports it. -/
def infoOf (s : Store) (c : Str) : FInfo :=
  if isdirS s c then { name := c, isDir := true, size := 0, lastModified := none }
  else { name := c, isDir := false, size := ((lookupS s c).getD []).length, lastModified := none }

/-- Model of `fs.ls(path, detail=True)`: the immediate children of a
directory, the file itself for a file key, and an exception (`none`,
`FileNotFoundError`) otherwise. -/
def lsS (s : Store) (p : Str) : Option (List FInfo) :=
  if isdirS s p then some ((lsNames s p).map (infoOf s))
  else
    match lookupS s p with
    | some c => some [{ name := p, isDir := false, size := c.length, lastModified := none }]
    | none => none

/-- A store-layer operation, recorded by the handlers in order. -/
inductive StoreEvent where
  | readE (p : Str)
  | writeE (p : Str) (c : Str)
  | deleteE (p : Str)
  | existsE (p : Str)
  | listE (p : Str)
  | invalidateE (p : Str)
deriving DecidableEq, Repr

/-- The path a write event writes to, if the event is a write. -/
def writePathOf : StoreEvent → Option Str
  | StoreEvent.writeE p _ => some p
  | _ => none

/-- The write events of a trace (the paths written, in order). -/
def writesOf (evs : List StoreEvent) : List Str := evs.filterMap writePathOf

/-- Per-request state of `HuggingFaceWebDAV.__init__`: the owner and dataset
name (the token only parameterises the external client and is dropped). -/
structure DavCtx where
  username : Str
  dataset : Str
deriving DecidableEq, Repr

/-- `f"datasets/{self.dataset_id}"` where `dataset_id = f"{username}/{dataset}"`. -/
def repoRoot (ctx : DavCtx) : Str := strL "datasets/" ++ ctx.username ++ [47] ++ ctx.dataset

/-- The store key a decoded request path resolves to: `f"datasets/{id}/{decoded}"`. -/
def repoKey (ctx : DavCtx) (decoded : Str) : Str := repoRoot ctx ++ [47] ++ decoded

/-- An HTTP response: status, optional body, headers. -/
structure Rsp where
  status : Nat
  body : Option Str
  headers : List (Str × Str)
deriving DecidableEq, Repr

/-- Result of one handler: response, resulting store, trace of store events. -/
structure HRes where
  rsp : Rsp
  store : Store
  events : List StoreEvent
deriving DecidableEq, Repr

/-- The `400 Invalid path` response of the validating handlers. -/
def rsp400 : Rsp := { status := 400, body := some (strL "Invalid path"), headers := [] }

/-- A bare status response (`Response(status_code=n)`). -/
def rspCode (n : Nat) : Rsp := { status := n, body := none, headers := [] }

/-- Model of `mimetypes.guess_type` (an out-of-scope external collaborator,
§1 of the design): the model store has no extension database, so it never
guesses a type and the handlers fall back to `application/octet-stream`.
No claim constrains the guessed value. -/
def guess_type (_p : Str) : Option Str := none

/-- Media type fallback used by GET and HEAD. -/
def octetStream : Str := strL "application/octet-stream"

/-- The `Content-Disposition` value built by GET/HEAD:
`attachment; filename*=UTF-8''<quoted filename>`. -/
def contentDispositionVal (filename : Str) : Str :=
  strL "attachment; filename*=UTF-8" ++ [39, 39] ++ quote filename

/-- Extending the accumulated prefix by one segment, mirroring
`'/'.join(parts[:i])` of `_ensure_parent_dirs`. -/
def dirStep (acc part : Str) : Str := if acc = [] then part else acc ++ [47] ++ part

/-- The inner loop of `_ensure_parent_dirs` (src/main.py:68): walk the
strict prefixes of the path in order (`acc` is the prefix joined so far),
and for each one create `{repo}/{prefix}/.keep` only if it does not
already exist. -/
def ensureLoop (root : Str) (s : Store) (acc : Str) : List Str → Store × List StoreEvent
  | [] => (s, [])
  | part :: rest =>
    let dir := dirStep acc part
    let keep := root ++ [47] ++ dir ++ [47] ++ keepName
    if existsS s keep then
      let r := ensureLoop root s dir rest
      (r.1, StoreEvent.existsE keep :: r.2)
    else
      let r := ensureLoop root (writeS s keep []) dir rest
      (r.1, StoreEvent.existsE keep :: StoreEvent.writeE keep [] :: r.2)

/-- `HuggingFaceWebDAV._ensure_parent_dirs` (src/main.py:68):
`parts = path.strip('/').split('/')[:-1]`, then create each missing
`.keep` marker in prefix order. -/
def ensure_parent_dirs (ctx : DavCtx) (s : Store) (path : Str) : Store × List StoreEvent :=
  ensureLoop (repoRoot ctx) s [] ((splitChar 47 (stripSlashes path)).dropLast)

/-- `HuggingFaceWebDAV.handle_get` (src/main.py:188): decode, validate
(400 on failure), read the object whole (404 on failure), answer 200 with
the bytes, `Content-Type`, `Content-Disposition`, `Accept-Ranges` and
`Content-Length`. -/
def handle_get (ctx : DavCtx) (s : Store) (path : Str) : HRes :=
  let decoded := decode_path (stripSlashes path)
  if validate_path decoded = false then { rsp := rsp400, store := s, events := [] }
  else
    let rp := repoKey ctx decoded
    match lookupS s rp with
    | none => { rsp := rspCode 404, store := s, events := [StoreEvent.readE rp] }
    | some content =>
      { rsp := { status := 200, body := some content,
                 headers := [(strL "Content-Type", (guess_type decoded).getD octetStream),
                             (strL "Content-Disposition", contentDispositionVal (basename decoded)),
                             (strL "Accept-Ranges", strL "bytes"),
                             (strL "Content-Length", natStr content.length)] },
        store := s, events := [StoreEvent.readE rp] }

/-- `HuggingFaceWebDAV.handle_head` (src/main.py:224): decode, validate
(400), stat the object (404 on failure), answer 200 with the same headers
as GET plus `Last-Modified`, but no body.  `now` stands for
`datetime.now(timezone.utc)` already rendered. -/
def handle_head (ctx : DavCtx) (s : Store) (path : Str) (now : Str) : HRes :=
  let decoded := decode_path (stripSlashes path)
  if validate_path decoded = false then { rsp := rsp400, store := s, events := [] }
  else
    let rp := repoKey ctx decoded
    if existsS s rp then
      let size := ((lookupS s rp).getD []).length
      { rsp := { status := 200, body := none,
                 headers := [(strL "Content-Type", (guess_type decoded).getD octetStream),
                             (strL "Content-Length", natStr size),
                             (strL "Content-Disposition", contentDispositionVal (basename decoded)),
                             (strL "Accept-Ranges", strL "bytes"),
                             (strL "Last-Modified", now)] },
        store := s, events := [StoreEvent.existsE rp] }
    else { rsp := rspCode 404, store := s, events := [StoreEvent.existsE rp] }

/-- `HuggingFaceWebDAV.handle_put` (src/main.py:262): decode, validate
(400), ensure parent markers, write the body whole, invalidate the parent
scope, answer 201. -/
def handle_put (ctx : DavCtx) (s : Store) (path : Str) (content : Str) : HRes :=
  let decoded := decode_path (stripSlashes path)
  if validate_path decoded = false then { rsp := rsp400, store := s, events := [] }
  else
    let r := ensure_parent_dirs ctx s decoded
    let rp := repoKey ctx decoded
    let s2 := writeS r.1 rp content
    { rsp := rspCode 201, store := s2,
      events := r.2 ++ [StoreEvent.writeE rp content, StoreEvent.invalidateE (dirname rp)] }

/-- `HuggingFaceWebDAV.handle_mkcol` (src/main.py:286): decode (no
validation in the source), write `{repo}/{decoded}/.keep`, invalidate the
grandparent of the marker, answer 201. -/
def handle_mkcol (ctx : DavCtx) (s : Store) (path : Str) : HRes :=
  let decoded := decode_path (stripSlashes path)
  let rp := repoKey ctx decoded ++ [47] ++ keepName
  let s1 := writeS s rp []
  { rsp := rspCode 201, store := s1,
    events := [StoreEvent.writeE rp [], StoreEvent.invalidateE (dirname (dirname rp))] }

/-- Length of the longest key in the store. -/
def maxKeyLen (s : Store) : Nat := s.foldr (fun e m => max e.1.length m) 0

/-- The recursion of `_recursive_delete` (src/main.py:302), fuel-driven so
that it is total and reduces in the kernel: if the path exists and is a
directory, recursively delete each listed child (the loop over the `ls`
snapshot is the fold), then delete its own `.keep` if present; if it is a
file, delete it; otherwise do nothing.  One fuel unit is spent per nesting
level, and `recursive_delete` supplies fuel provably larger than any
possible nesting depth. -/
def recDelF : Nat → Str → Store → Store
  | 0, _, s => s
  | fuel + 1, p, s =>
    if existsS s p then
      if isdirS s p then
        let s1 := (lsNames s p).foldl (fun acc c => recDelF fuel c acc) s
        let keep := p ++ [47] ++ keepName
        if existsS s1 keep then deleteS s1 keep else s1
      else deleteS s p
    else s

/-- `HuggingFaceWebDAV._recursive_delete` (src/main.py:302). -/
def recursive_delete (s : Store) (p : Str) : Store := recDelF (maxKeyLen s + 2) p s

/-- `HuggingFaceWebDAV.handle_delete` (src/main.py:316): decode (no
validation in the source), recursively delete, invalidate the parent
scope, answer 204. -/
def handle_delete (ctx : DavCtx) (s : Store) (path : Str) : HRes :=
  let decoded := decode_path (stripSlashes path)
  let rp := repoKey ctx decoded
  let s1 := recursive_delete s rp
  { rsp := rspCode 204, store := s1, events := [StoreEvent.invalidateE (dirname rp)] }

/-- `HuggingFaceWebDAV.handle_move` (src/main.py:330): decode both paths
(no validation in the source), read the source whole (500 on failure),
ensure the destination's parent markers, write the destination, delete the
source, invalidate both parents, answer 201. -/
def handle_move (ctx : DavCtx) (s : Store) (source destination : Str) : HRes :=
  let dsrc := decode_path (stripSlashes source)
  let ddst := decode_path (stripSlashes destination)
  let srcP := repoKey ctx dsrc
  let dstP := repoKey ctx ddst
  match lookupS s srcP with
  | none => { rsp := rspCode 500, store := s, events := [StoreEvent.readE srcP] }
  | some content =>
    let r := ensure_parent_dirs ctx s ddst
    let s2 := writeS r.1 dstP content
    let s3 := deleteS s2 srcP
    { rsp := rspCode 201, store := s3,
      events := StoreEvent.readE srcP :: r.2 ++
        [StoreEvent.writeE dstP content, StoreEvent.deleteE srcP,
         StoreEvent.invalidateE (dirname srcP), StoreEvent.invalidateE (dirname dstP)] }

/-- `HuggingFaceWebDAV.handle_copy` (src/main.py:354): like MOVE but the
source is kept and only the destination parent is invalidated. -/
def handle_copy (ctx : DavCtx) (s : Store) (source destination : Str) : HRes :=
  let dsrc := decode_path (stripSlashes source)
  let ddst := decode_path (stripSlashes destination)
  let srcP := repoKey ctx dsrc
  let dstP := repoKey ctx ddst
  match lookupS s srcP with
  | none => { rsp := rspCode 500, store := s, events := [StoreEvent.readE srcP] }
  | some content =>
    let r := ensure_parent_dirs ctx s ddst
    let s2 := writeS r.1 dstP content
    { rsp := rspCode 201, store := s2,
      events := StoreEvent.readE srcP :: r.2 ++
        [StoreEvent.writeE dstP content, StoreEvent.invalidateE (dirname dstP)] }

/-- Lexicographic order on code-point strings, as Python `<=` on `str`. -/
def lexLe : Str → Str → Bool
  | [], _ => true
  | _ :: _, [] => false
  | a :: t1, b :: t2 => if a < b then true else if b < a then false else lexLe t1 t2

/-- The order Python `sorted` uses on the directory names. -/
def strLe (a b : Str) : Prop := lexLe a b = true

instance : DecidableRel strLe := fun a b => decEq (lexLe a b) true

/-- A collected file row: relative path, size, last-modified string; the
value part mirrors the `files_in_current_dir` dict of `handle_propfind`. -/
abbrev FileRow := Str × Nat × Str

/-- Order on file rows: Python sorts `dict.items()` by key (keys are
unique, so the tuple comparison never reaches the values). -/
def rowLe (a b : FileRow) : Prop := strLe a.1 b.1

instance : DecidableRel rowLe := fun a b => decEq (lexLe a.1 b.1) true

instance : IsTotal Str strLe :=
  ⟨by
    intro a b
    induction a generalizing b with
    | nil => exact Or.inl rfl
    | cons x t ihx =>
      cases b with
      | nil => exact Or.inr rfl
      | cons y u =>
        rcases Nat.lt_trichotomy x y with h | h | h
        · left
          simp [strLe, lexLe, h]
        · subst h
          rcases ihx u with hh | hh
          · left
            simpa [strLe, lexLe] using hh
          · right
            simpa [strLe, lexLe] using hh
        · right
          simp [strLe, lexLe, h]⟩

instance : IsTrans Str strLe :=
  ⟨by
    intro a
    induction a with
    | nil =>
      intro b c _ _
      exact rfl
    | cons x t ihx =>
      intro b c hab hbc
      cases b with
      | nil => exact absurd hab (by simp [strLe, lexLe])
      | cons y u =>
        cases c with
        | nil => exact absurd hbc (by simp [strLe, lexLe])
        | cons z v =>
          simp only [strLe, lexLe] at hab hbc ⊢
          by_cases hxy : x < y
          · rw [if_pos hxy] at hab
            by_cases hyz : y < z
            · simp [lt_trans hxy hyz]
            · rw [if_neg hyz] at hbc
              by_cases hzy : z < y
              · rw [if_pos hzy] at hbc
                cases hbc
              · have hyzeq : y = z := le_antisymm (not_lt.mp hzy) (not_lt.mp hyz)
                subst hyzeq
                simp [hxy]
          · rw [if_neg hxy] at hab
            by_cases hyx : y < x
            · rw [if_pos hyx] at hab
              cases hab
            · have hxyeq : x = y := le_antisymm (not_lt.mp hyx) (not_lt.mp hxy)
              subst hxyeq
              rw [if_neg (lt_irrefl x)] at hab
              by_cases hyz : x < z
              · simp [hyz]
              · rw [if_neg hyz] at hbc
                by_cases hzy : z < x
                · rw [if_pos hzy] at hbc
                  cases hbc
                · have hxzeq : x = z := le_antisymm (not_lt.mp hzy) (not_lt.mp hyz)
                  subst hxzeq
                  rw [if_neg (lt_irrefl x)] at hbc
                  simp only [lt_irrefl, if_false]
                  exact ihx u v hab hbc⟩

instance : IsTotal FileRow rowLe :=
  ⟨fun a b => IsTotal.total (r := strLe) a.1 b.1⟩

instance : IsTrans FileRow rowLe :=
  ⟨fun a b c hab hbc => IsTrans.trans (r := strLe) a.1 b.1 c.1 hab hbc⟩

/-- Set-insertion for the `directories` set of `handle_propfind` (the set
has no order of its own; the list is sorted before use). -/
def setInsert (l : List Str) (x : Str) : List Str := if x ∈ l then l else l ++ [x]

/-- Dict-insertion for `files_in_current_dir`: replace in place or append. -/
def dictInsert : List FileRow → Str → Nat × Str → List FileRow
  | [], k, v => [(k, v)]
  | (k1, v1) :: t, k, v => if k1 = k then (k, v) :: t else (k1, v1) :: dictInsert t k v

/-- The classification loop of `handle_propfind` (src/main.py:107-125):
strip the repo prefix, skip the collection itself, collect directories
into the set, skip `.keep` markers, collect the other files with size and
formatted timestamp (`now` when the listing reports none). -/
def collectLoop (repoP now : Str) (ds : List Str) (fs : List FileRow) : List FInfo → List Str × List FileRow
  | [] => (ds, fs)
  | i :: rest =>
    let rel := stripSlashes (i.name.drop repoP.length)
    if rel = [] then collectLoop repoP now ds fs rest
    else if i.isDir then collectLoop repoP now (setInsert ds rel) fs rest
    else if basename rel = keepName then collectLoop repoP now ds fs rest
    else
      collectLoop repoP now ds
        (dictInsert fs rel (i.size, (i.lastModified.getD now))) rest

/-- One `<D:response>` entry of the multistatus body: href, resourcetype
(`isCollection` = presence of `<D:collection/>`), optional
`<D:getcontenttype>`, optional `<D:getcontentlength>` (as its rendered
string), displayname, `<D:getlastmodified>`, and the status line. -/
structure PfEntry where
  href : Str
  isCollection : Bool
  contentType : Option Str
  contentLength : Option Str
  displayname : Str
  lastModified : Str
  status : Str
deriving DecidableEq, Repr

/-- The fixed status line of every multistatus entry. -/
def okStatus : Str := strL "HTTP/1.1 200 OK"

/-- The content type reported for directory entries. -/
def httpdUnixDir : Str := strL "httpd/unix-directory"

/-- The entry for the collection itself (src/main.py:130-140). -/
def selfEntry (decoded now : Str) : PfEntry :=
  { href := if decoded = [] then [47] else 47 :: encode_path decoded,
    isCollection := true, contentType := none, contentLength := none,
    displayname := if decoded = [] then [47] else basename decoded,
    lastModified := now, status := okStatus }

/-- A directory entry (src/main.py:143-155): encoded href with trailing
slash, collection resourcetype, `httpd/unix-directory`. -/
def dirEntry (now : Str) (d : Str) : PfEntry :=
  { href := 47 :: (encode_path d ++ [47]),
    isCollection := true, contentType := some httpdUnixDir, contentLength := none,
    displayname := basename d, lastModified := now, status := okStatus }

/-- A file entry (src/main.py:158-170): encoded href, empty resourcetype,
`application/octet-stream`, content length, last-modified. -/
def fileEntry (f : FileRow) : PfEntry :=
  { href := 47 :: encode_path f.1,
    isCollection := false, contentType := some octetStream,
    contentLength := some (natStr f.2.1),
    displayname := basename f.1, lastModified := f.2.2, status := okStatus }

/-- Result of PROPFIND: response, the multistatus entries in body order,
and the store events (the store itself is not mutated). -/
structure PfRes where
  rsp : Rsp
  entries : List PfEntry
  events : List StoreEvent
deriving DecidableEq, Repr

/-- Response headers attached to a successful PROPFIND. -/
def propfindHeaders : List (Str × Str) :=
  [(strL "DAV", strL "1,2"), (strL "MS-Author-Via", strL "DAV"),
   (strL "Cache-Control", strL "no-cache"),
   (strL "Content-Type", strL "application/xml; charset=utf-8")]

/-- `HuggingFaceWebDAV.handle_propfind` (src/main.py:88): decode, validate
(400), invalidate the scope, list it (500 on listing failure), classify
children, and emit the multistatus: the collection itself first, then the
directories sorted lexicographically, then the files sorted
lexicographically, each with fixed `200 OK` status lines. -/
def handle_propfind (ctx : DavCtx) (s : Store) (path : Str) (now : Str) : PfRes :=
  let decoded := decode_path (stripSlashes path)
  if validate_path decoded = false then { rsp := rsp400, entries := [], events := [] }
  else
    let repoP := repoRoot ctx
    let currentPath := if decoded = [] then repoP else repoP ++ [47] ++ decoded
    match lsS s currentPath with
    | none =>
      { rsp := rspCode 500, entries := [],
        events := [StoreEvent.invalidateE currentPath, StoreEvent.listE currentPath] }
    | some infos =>
      let c := collectLoop repoP now [] [] infos
      let entries :=
        selfEntry decoded now ::
          ((c.1.insertionSort strLe).map (dirEntry now) ++
           (c.2.insertionSort rowLe).map fileEntry)
      { rsp := { status := 207, body := none, headers := propfindHeaders },
        entries := entries,
        events := [StoreEvent.invalidateE currentPath, StoreEvent.listE currentPath] }

/-- Value of one standard-alphabet base64 character. -/
def b64val (c : Nat) : Option Nat :=
  if 65 ≤ c ∧ c ≤ 90 then some (c - 65)
  else if 97 ≤ c ∧ c ≤ 122 then some (c - 71)
  else if 48 ≤ c ∧ c ≤ 57 then some (c + 4)
  else if c = 43 then some 62
  else if c = 47 then some 63
  else none

/-- Decode filtered base64 text four characters at a time; `none` models
`binascii.Error` (incorrect padding / stray padding). -/
def b64quads : Str → Option Str
  | [] => some []
  | a :: b :: c :: d :: rest =>
    match b64val a, b64val b with
    | some va, some vb =>
      if c = 61 then
        if d = 61 ∧ rest = [] then some [va * 4 + vb / 16] else none
      else
        match b64val c with
        | some vc =>
          if d = 61 then
            if rest = [] then some [va * 4 + vb / 16, (vb % 16) * 16 + vc / 4] else none
          else
            match b64val d with
            | some vd =>
              (b64quads rest).map
                (fun r => (va * 4 + vb / 16) :: ((vb % 16) * 16 + vc / 4) :: ((vc % 4) * 64 + vd) :: r)
            | none => none
        | none => none
    | _, _ => none
  | _ => none

/-- Model of `base64.b64decode` with default `validate=False`: characters
outside the alphabet (other than `=`) are discarded, then the rest must be
well-formed quads.  (The decoded credential bytes are used as code points
directly; the `bytes.decode()` UTF-8 step is the identity on every input
the theorems touch.) -/
def b64decode (s : Str) : Option Str :=
  b64quads (s.filter (fun c => (b64val c).isSome || c == 61))

/-- The credential split of `handle_webdav` (src/main.py:430-432):
`auth_decoded.split(":")` must unpack to exactly two names, then the first
must split on `/` into exactly owner and dataset.  `none` models the
`ValueError` of a failed unpacking. -/
def parseCreds (payload : Str) : Option (Str × Str × Str) :=
  match splitChar 58 payload with
  | [ud, tok] =>
    match splitChar 47 ud with
    | [u, d] => some (u, d, tok)
    | _ => none
  | _ => none

/-- The whole credential pipeline after the `Basic ` prefix check:
base64-decode the rest of the header, then split it.  Either failure lands
in the same `except` branch of `handle_webdav` (→ 500). -/
def parseAuth (a : Str) : Option (Str × Str × Str) :=
  (b64decode (a.drop 6)).bind parseCreds

/-- The scheme prefix `"Basic "` checked by `auth.startswith`. -/
def basicScheme : Str := strL "Basic "

/-- Suffix of `s` after the first occurrence of `pat`, if any. -/
def afterSub (pat : Str) : Str → Option Str
  | [] => if pat.isPrefixOf [] then some [] else none
  | b :: t => if pat.isPrefixOf (b :: t) then some ((b :: t).drop pat.length) else afterSub pat t

/-- Model of `urllib.parse.urlparse(u).path` for the URLs WebDAV clients
send in `Destination`: strip any fragment and query, and when the URL has
a `scheme://netloc` part, keep only what follows the netloc. -/
def urlPath (u : Str) : Str :=
  let base := (u.takeWhile (fun b => !(b == 35))).takeWhile (fun b => !(b == 63))
  match afterSub (strL "://") base with
  | none => base
  | some rest => rest.dropWhile (fun b => !(b == 47))

/-- Drop one leading path segment together with its slash. -/
def dropSeg (s : Str) : Str := (s.dropWhile (fun b => !(b == 47))).drop 1

/-- The `Destination` parsing of `handle_webdav` (src/main.py:453-454):
take the URL path; when it has more than three slash-separated pieces keep
what follows the third slash (`path.split("/", 3)[-1]`), otherwise
strip all leading slashes (`path.lstrip("/")`). -/
def parse_destination (dest : Str) : Str :=
  let p := urlPath dest
  if 3 < (splitChar 47 p).length then dropSeg (dropSeg (dropSeg p))
  else p.dropWhile (fun b => b == 47)

/-- The verbs the router accepts (src/main.py:409). -/
inductive Method where
  | GET | HEAD | PUT | PROPFIND | MKCOL | DELETE | MOVE | COPY | OPTIONS
deriving DecidableEq, Repr

/-- One request as the transport hands it over: verb, wildcard path, the
`Authorization` and `Destination` headers, body bytes. -/
structure Request where
  method : Method
  path : Str
  auth : Option Str
  destination : Option Str
  body : Str
deriving DecidableEq, Repr

/-- The OPTIONS response (src/main.py:411-420). -/
def rspOptions : Rsp :=
  { status := 200, body := none,
    headers := [(strL "Allow", strL "GET, HEAD, PUT, PROPFIND, PROPPATCH, MKCOL, DELETE, COPY, MOVE, LOCK, UNLOCK, OPTIONS"),
                (strL "DAV", strL "1, 2"), (strL "MS-Author-Via", strL "DAV"),
                (strL "Accept-Ranges", strL "bytes"), (strL "Cache-Control", strL "no-cache")] }

/-- The 401 challenge (src/main.py:423-427). -/
def rsp401 : Rsp :=
  { status := 401, body := none,
    headers := [(strL "WWW-Authenticate", strL "Basic realm=\"HuggingFace WebDAV\"")] }

/-- `handle_webdav` (src/main.py:410): OPTIONS is answered without auth;
a missing or non-`Basic ` `Authorization` header gets the 401 challenge; a
header whose payload fails to base64-decode or to unpack as
`owner/dataset:token` raises inside the `try` and gets a bare 500; then
the verb is dispatched to its handler (MOVE/COPY first demand a non-empty
`Destination`).  `now` renders `datetime.now(timezone.utc)`. -/
def handle_webdav (req : Request) (s : Store) (now : Str) : HRes :=
  if req.method = Method.OPTIONS then { rsp := rspOptions, store := s, events := [] }
  else
    match req.auth with
    | none => { rsp := rsp401, store := s, events := [] }
    | some a =>
      if basicScheme.isPrefixOf a = false then { rsp := rsp401, store := s, events := [] }
      else
        match parseAuth a with
        | none => { rsp := rspCode 500, store := s, events := [] }
        | some (u, d, _tok) =>
          let ctx : DavCtx := { username := u, dataset := d }
          match req.method with
          | Method.PROPFIND =>
            let r := handle_propfind ctx s req.path now
            { rsp := r.rsp, store := s, events := r.events }
          | Method.GET => handle_get ctx s req.path
          | Method.HEAD => handle_head ctx s req.path now
          | Method.PUT => handle_put ctx s req.path req.body
          | Method.MKCOL => handle_mkcol ctx s req.path
          | Method.DELETE => handle_delete ctx s req.path
          | Method.MOVE =>
            let dest := req.destination.getD []
            if dest = [] then { rsp := rspCode 400, store := s, events := [] }
            else handle_move ctx s req.path (parse_destination dest)
          | Method.COPY =>
            let dest := req.destination.getD []
            if dest = [] then { rsp := rspCode 400, store := s, events := [] }
            else handle_copy ctx s req.path (parse_destination dest)
          | Method.OPTIONS => { rsp := rspCode 405, store := s, events := [] }

/-- Association lookup in a response's header list. -/
def headerVal : List (Str × Str) → Str → Option Str
  | [], _ => none
  | (k, v) :: t, q => if k = q then some v else headerVal t q

/-- A store is proper when no key is a slash-prefix of another: the same
path never names both a file and a directory.  This always holds for the
real backend (a repository tree cannot contain a blob and a tree at the
same path). -/
def properB (s : Store) : Bool :=
  s.all (fun e1 => s.all (fun e2 => !((e1.1 ++ [47]).isPrefixOf e2.1)))

/-- The marker keys `ensureLoop` visits, in visiting order: one
`{root}/{prefix}/.keep` per accumulated prefix. -/
def keepsOf (root : Str) : Str → List Str → List Str
  | _, [] => []
  | acc, part :: rest =>
    let dir := dirStep acc part
    (root ++ [47] ++ dir ++ [47] ++ keepName) :: keepsOf root dir rest

/-- Independence of two marker keys: writing the first cannot change
whether the second exists (distinct keys, and the first does not sit below
the second). -/
abbrev keepIndep (k1 k2 : Str) : Prop := k2 ≠ k1 ∧ (k2 ++ [47]).isPrefixOf k1 = false

/-- The multistatus shape claimed of a successful PROPFIND: the body is
the collection's own entry first, then one entry per listed directory
sorted lexicographically (collection resourcetype, `httpd/unix-directory`)
then one entry per listed non-marker file sorted lexicographically
(`application/octet-stream`, content-length = the listed size), `.keep`
markers excluded, and every entry's status line fixed to
`HTTP/1.1 200 OK`. -/
def PropfindOutputShape (ctx : DavCtx) (s : Store) (path now : Str) : Prop :=
  ∃ infos ds fs,
    lsS s (if decode_path (stripSlashes path) = [] then repoRoot ctx
           else repoRoot ctx ++ [47] ++ decode_path (stripSlashes path)) = some infos ∧
    (handle_propfind ctx s path now).entries =
      selfEntry (decode_path (stripSlashes path)) now ::
        (ds.map (dirEntry now) ++ fs.map fileEntry) ∧
    List.Sorted strLe ds ∧
    List.Sorted rowLe fs ∧
    (selfEntry (decode_path (stripSlashes path)) now).isCollection = true ∧
    (selfEntry (decode_path (stripSlashes path)) now).status = okStatus ∧
    (∀ e ∈ ds.map (dirEntry now), e.isCollection = true ∧
      e.contentType = some httpdUnixDir ∧ e.status = okStatus) ∧
    (∀ e ∈ fs.map fileEntry, e.isCollection = false ∧
      e.contentType = some octetStream ∧ e.status = okStatus) ∧
    (∀ d ∈ ds, ∃ i ∈ infos, i.isDir = true ∧
      d = stripSlashes (i.name.drop (repoRoot ctx).length)) ∧
    (∀ f ∈ fs, ∃ i ∈ infos, i.isDir = false ∧
      f = (stripSlashes (i.name.drop (repoRoot ctx).length), i.size, i.lastModified.getD now) ∧
      (fileEntry f).contentLength = some (natStr i.size) ∧
      basename f.1 ≠ keepName) ∧
    (∀ i ∈ infos, i.isDir = true → stripSlashes (i.name.drop (repoRoot ctx).length) ≠ [] →
      stripSlashes (i.name.drop (repoRoot ctx).length) ∈ ds) ∧
    (∀ i ∈ infos, i.isDir = false → stripSlashes (i.name.drop (repoRoot ctx).length) ≠ [] →
      basename (stripSlashes (i.name.drop (repoRoot ctx).length)) ≠ keepName →
      ∃ f ∈ fs, f.1 = stripSlashes (i.name.drop (repoRoot ctx).length))

/-! Lemmas about the percent codec. -/

theorem unquote_cons_ne (b : Nat) (l : Str) (h : b ≠ 37) : unquote (b :: l) = b :: unquote l := by
  rcases l with _ | ⟨x, _ | ⟨y, t⟩⟩ <;> simp [unquote, h]

theorem unquote_escape (h1 h2 : Nat) (l : Str) (e1 : hexDigit h1 = true) (e2 : hexDigit h2 = true) :
    unquote (37 :: h1 :: h2 :: l) = (hexVal h1 * 16 + hexVal h2) :: unquote l := by
  simp [unquote, e1, e2]

theorem hexDigit_hexUp (n : Nat) (h : n < 16) : hexDigit (hexUp n) = true := by
  simp only [hexDigit, hexUp, Bool.or_eq_true, Bool.and_eq_true, decide_eq_true_eq]
  split <;> omega

theorem hexVal_hexUp (n : Nat) (h : n < 16) : hexVal (hexUp n) = n := by
  simp only [hexVal, hexUp]
  repeat' split
  all_goals omega

theorem unquote_quoteByte (b : Nat) (hb : b < 256) (l : Str) :
    unquote (quoteByte b ++ l) = b :: unquote l := by
  by_cases hs : alwaysSafe b = true
  · have hb37 : b ≠ 37 := by
      intro h
      rw [h] at hs
      exact absurd hs (by decide)
    simp [quoteByte, hs, unquote_cons_ne b l hb37]
  · have h1 : b / 16 < 16 := by omega
    have h2 : b % 16 < 16 := by omega
    simp only [quoteByte, hs, if_false, Bool.false_eq_true, List.cons_append, List.nil_append]
    rw [unquote_escape _ _ _ (hexDigit_hexUp _ h1) (hexDigit_hexUp _ h2),
        hexVal_hexUp _ h1, hexVal_hexUp _ h2]
    congr 1
    omega

theorem unquote_quote_append (p : Str) (hp : ∀ b ∈ p, b < 256) (l : Str) :
    unquote (quote p ++ l) = p ++ unquote l := by
  induction p with
  | nil => simp [quote]
  | cons b t ih =>
    have hb : b < 256 := hp b (by simp)
    have ht : ∀ x ∈ t, x < 256 := fun x hx => hp x (by simp [hx])
    simp only [quote, List.append_assoc]
    rw [unquote_quoteByte b hb, ih ht]
    rfl

theorem unquote_joinChar_quote (parts : List Str) (hp : ∀ p ∈ parts, ∀ b ∈ p, b < 256) :
    unquote (joinChar 47 (parts.map (fun part => if part = [] then part else quote part))) =
      joinChar 47 parts := by
  have hq : ∀ p : Str, (if p = [] then p else quote p) = quote p := by
    intro p
    split
    · simp_all [quote]
    · rfl
  induction parts with
  | nil => simp [joinChar, unquote]
  | cons p ps ih =>
    have hps : ∀ q ∈ ps, ∀ b ∈ q, b < 256 := fun q hq2 b hb => hp q (by simp [hq2]) b hb
    cases ps with
    | nil =>
      simp only [List.map, joinChar, hq]
      have := unquote_quote_append p (hp p (by simp)) []
      simpa [unquote] using this
    | cons q qs =>
      simp only [List.map, joinChar, hq]
      rw [unquote_quote_append p (hp p (by simp))]
      rw [unquote_cons_ne 47 _ (by decide)]
      have := ih hps
      simp only [List.map, hq] at this
      rw [this]

theorem splitChar_ne_nil (c : Nat) (s : Str) : splitChar c s ≠ [] := by
  cases s with
  | nil => simp [splitChar]
  | cons b t =>
    simp only [splitChar]
    split
    · simp
    · rcases h : splitChar c t with _ | ⟨p, ps⟩ <;> simp

theorem joinChar_splitChar (c : Nat) (s : Str) : joinChar c (splitChar c s) = s := by
  induction s with
  | nil => rfl
  | cons b t ih =>
    by_cases hbc : (b == c) = true
    · have hb : b = c := by simpa using hbc
      simp only [splitChar, hbc, if_true]
      rcases h : splitChar c t with _ | ⟨p, ps⟩
      · exact absurd h (splitChar_ne_nil c t)
      · rw [h] at ih
        simp only [joinChar, List.nil_append]
        rw [ih, hb]
    · simp only [splitChar, hbc, if_false]
      rcases h : splitChar c t with _ | ⟨p, ps⟩
      · exact absurd h (splitChar_ne_nil c t)
      · rw [h] at ih
        cases ps with
        | nil => simp only [joinChar] at ih ⊢; rw [ih]
        | cons q qs =>
          simp only [joinChar, List.cons_append] at ih ⊢
          rw [ih]

theorem mem_of_mem_splitChar (c b : Nat) (p s : Str) (hp : p ∈ splitChar c s) (hb : b ∈ p) :
    b ∈ s := by
  induction s generalizing p with
  | nil =>
    simp [splitChar] at hp
    subst hp
    simp at hb
  | cons a t ih =>
    by_cases hac : (a == c) = true
    · simp only [splitChar, hac, if_true, List.mem_cons] at hp
      rcases hp with hp | hp
      · subst hp; simp at hb
      · exact List.mem_cons_of_mem a (ih p hp hb)
    · simp only [splitChar, hac, if_false] at hp
      rcases h : splitChar c t with _ | ⟨q, qs⟩
      · exact absurd h (splitChar_ne_nil c t)
      · rw [h] at hp
        simp only [List.mem_cons] at hp
        rcases hp with hp2 | hp2
        · rcases List.mem_cons.mp hb with hb2 | hb2
          · simp [hb2]
          · exact List.mem_cons_of_mem a (ih q (by rw [h]; exact List.mem_cons_self q qs) hb2)
        · rename_i hp3
          exact List.mem_cons_of_mem a (ih p (by rw [h]; exact List.mem_cons_of_mem q hp3) hb)

/-- C3: for every path of printable characters, decoding the encoding gives
the path back (`_decode_path ∘ _encode_path = id` there). -/
theorem claim_c3_decode_encode_roundtrip (p : Str) (h : ∀ b ∈ p, 32 ≤ b ∧ b ≤ 126) :
    decode_path (encode_path p) = p := by
  by_cases hp : p = []
  · subst hp; rfl
  · have h256 : ∀ part ∈ splitChar 47 p, ∀ b ∈ part, b < 256 := by
      intro part hpart b hb
      have := h b (mem_of_mem_splitChar 47 b part p hpart hb)
      omega
    have key : unquote (encode_path p) = p := by
      rw [encode_path, if_neg hp, unquote_joinChar_quote _ h256, joinChar_splitChar]
    rw [decode_path]
    by_cases he : encode_path p = []
    · rw [he] at key
      simp only [unquote] at key
      exact absurd key.symm hp
    · rw [if_neg he]
      exact key

/-- Witness for C3 at the concrete printable path `he l-lo/a~b.txt`. -/
theorem claim_c3_witness :
    (∀ b ∈ strL "he l-lo/a~b.txt", 32 ≤ b ∧ b ≤ 126) ∧
      decode_path (encode_path (strL "he l-lo/a~b.txt")) = strL "he l-lo/a~b.txt" :=
  ⟨by decide, claim_c3_decode_encode_roundtrip _ (by decide)⟩

/-! Lemmas about `_validate_path`. -/

theorem hasSub_iff (pat s : Str) : hasSub pat s = true ↔ pat <:+: s := by
  induction s with
  | nil => simp [hasSub, List.isPrefixOf_iff_prefix]
  | cons b t ih => simp [hasSub, List.isPrefixOf_iff_prefix, ih, List.infix_cons_iff]

theorem hasSub_singleton (x : Nat) (s : Str) : hasSub [x] s = true ↔ x ∈ s := by
  rw [hasSub_iff]
  constructor
  · rintro ⟨l, r, rfl⟩
    simp
  · intro h
    obtain ⟨l, r, rfl⟩ := List.mem_iff_append.mp h
    exact ⟨l, r, by simp⟩

theorem validate_path_true_iff (p : Str) :
    validate_path p = true ↔
      ¬ ([46, 46] <:+: p) ∧ ¬ ((92 : Nat) ∈ p) ∧ ¬ ((0 : Nat) ∈ p) ∧ p.head? ≠ some 47 := by
  rcases p with _ | ⟨b, t⟩
  · constructor
    · intro _
      refine ⟨?_, ?_, ?_, ?_⟩ <;> simp
    · intro _
      rfl
  · rw [validate_path, if_neg (List.cons_ne_nil b t)]
    simp only [dangerous_patterns, List.any_cons, List.any_nil, Bool.or_false]
    split_ifs with h1 h2
    · simp only [Bool.false_eq_true, false_iff, not_and]
      intro hd hbs hn
      simp only [Bool.or_eq_true] at h1
      rcases h1 with h | h | h
      · exact absurd ((hasSub_iff _ _).mp h) hd
      · exact absurd ((hasSub_singleton _ _).mp h) hbs
      · exact absurd ((hasSub_singleton _ _).mp h) hn
    · have hb : b = 47 := by simpa using h2
      simp [hb]
    · have h47 : ¬(b = 47) := by simpa using h2
      have h1' := h1
      simp only [Bool.or_eq_true, not_or, Bool.not_eq_true] at h1'
      simp only [true_iff]
      refine ⟨?_, ?_, ?_, ?_⟩
      · intro hcon
        have hc := (hasSub_iff [46, 46] (b :: t)).mpr hcon
        simp [h1'.1] at hc
      · intro hcon
        have hc := (hasSub_singleton 92 (b :: t)).mpr hcon
        simp [h1'.2.1] at hc
      · intro hcon
        have hc := (hasSub_singleton 0 (b :: t)).mpr hcon
        simp [h1'.2.2] at hc
      · simp [h47]

/-- C2 counterexample: the path `a\b` contains none of the three patterns
the claim names (`..`, a leading `/`, NUL), yet `_validate_path` rejects
it, refuting the claim's "accepts every other path" half. -/
theorem claim_c2_counterexample :
    validate_path (strL "a\\b") = false ∧
      ¬ ([46, 46] <:+: strL "a\\b") ∧ ¬ ((0 : Nat) ∈ strL "a\\b") ∧
      (strL "a\\b").head? ≠ some 47 := by
  refine ⟨by decide, ?_, by decide, by decide⟩
  intro h
  have := (hasSub_iff [46, 46] (strL "a\\b")).mpr h
  exact absurd this (by decide)

/-- C2 amended: `_validate_path` accepts a path exactly when it contains
no `..`, no backslash, no NUL byte, and does not start with `/`; so the
claim's rejection half holds but a backslash is a fourth rejected pattern. -/
theorem claim_c2_validate_characterisation (p : Str) :
    validate_path p = true ↔
      ¬ ([46, 46] <:+: p) ∧ ¬ ((92 : Nat) ∈ p) ∧ ¬ ((0 : Nat) ∈ p) ∧ p.head? ≠ some 47 :=
  validate_path_true_iff p

/-- C1 is violated by the code: `handle_mkcol` never calls
`_validate_path`.  On the request path `%2e%2e/pwn` the decoded path
`../pwn` fails validation, yet MKCOL writes the marker object at
`datasets/u/d/../pwn/.keep` (the write reaches the store layer) and
answers 201, not 400.  (`handle_delete`, `handle_move` and `handle_copy`
skip validation in the same way.) -/
theorem claim_c1_mkcol_reaches_store_unvalidated :
    validate_path (decode_path (stripSlashes (strL "%2e%2e/pwn"))) = false ∧
    (handle_mkcol { username := strL "u", dataset := strL "d" } [] (strL "%2e%2e/pwn")).rsp.status = 201 ∧
    (handle_mkcol { username := strL "u", dataset := strL "d" } [] (strL "%2e%2e/pwn")).store =
      [(strL "datasets/u/d/../pwn/.keep", [])] ∧
    (handle_mkcol { username := strL "u", dataset := strL "d" } [] (strL "%2e%2e/pwn")).events =
      [StoreEvent.writeE (strL "datasets/u/d/../pwn/.keep") [],
       StoreEvent.invalidateE (strL "datasets/u/d/..")] := by
  refine ⟨by decide, by decide, by decide, by decide⟩

/-- C10: whenever the percent-decoded request path contains `..`, a
backslash or a NUL byte, the GET, HEAD, PUT and PROPFIND handlers answer
400 and perform no store operation (empty event trace, store unchanged):
each of them decodes before validating. -/
theorem claim_c10_handlers_reject_decoded_traversal (ctx : DavCtx) (s : Store)
    (path content now : Str)
    (h : [46, 46] <:+: decode_path (stripSlashes path) ∨
         (92 : Nat) ∈ decode_path (stripSlashes path) ∨
         (0 : Nat) ∈ decode_path (stripSlashes path)) :
    handle_get ctx s path = { rsp := rsp400, store := s, events := [] } ∧
    handle_head ctx s path now = { rsp := rsp400, store := s, events := [] } ∧
    handle_put ctx s path content = { rsp := rsp400, store := s, events := [] } ∧
    handle_propfind ctx s path now = { rsp := rsp400, entries := [], events := [] } := by
  have hv : validate_path (decode_path (stripSlashes path)) = false := by
    rcases Bool.eq_false_or_eq_true (validate_path (decode_path (stripSlashes path))) with ht | hf
    · exfalso
      rcases (validate_path_true_iff _).mp ht with ⟨h1, h2, h3, _⟩
      rcases h with h | h | h
      · exact h1 h
      · exact h2 h
      · exact h3 h
    · exact hf
  refine ⟨?_, ?_, ?_, ?_⟩ <;>
    simp [handle_get, handle_head, handle_put, handle_propfind, hv]

/-- Witness for C10: the encoded traversal path `%2e%2e/zz` decodes to
`../zz` and GET rejects it with 400 touching no store state. -/
theorem claim_c10_witness :
    ([46, 46] <:+: decode_path (stripSlashes (strL "%2e%2e/zz")) ∨
      (92 : Nat) ∈ decode_path (stripSlashes (strL "%2e%2e/zz")) ∨
      (0 : Nat) ∈ decode_path (stripSlashes (strL "%2e%2e/zz"))) ∧
    handle_get { username := strL "o", dataset := strL "ds" } [] (strL "%2e%2e/zz") =
      { rsp := rsp400, store := [], events := [] } :=
  ⟨by decide,
   (claim_c10_handlers_reject_decoded_traversal { username := strL "o", dataset := strL "ds" }
      [] (strL "%2e%2e/zz") [] [] (by decide)).1⟩

/-- C4 counterexample: the header `Basic YWJj` is valid base64 of `abc`,
which is not of the `owner/dataset:token` form; the claim promises 401
with a `WWW-Authenticate` challenge, but the dispatcher's `except` branch
answers a bare 500. -/
theorem claim_c4_counterexample :
    (handle_webdav
        { method := Method.GET, path := strL "x", auth := some (strL "Basic YWJj"),
          destination := none, body := [] } [] []).rsp.status = 500 ∧
    headerVal (handle_webdav
        { method := Method.GET, path := strL "x", auth := some (strL "Basic YWJj"),
          destination := none, body := [] } [] []).rsp.headers (strL "WWW-Authenticate") = none := by
  refine ⟨by decide, by decide⟩

/-- C4 amended: for every non-OPTIONS request, a missing or non-`Basic `
`Authorization` header is answered 401 with the `WWW-Authenticate: Basic`
challenge; but a `Basic ` header whose payload fails to base64-decode or
to parse as `owner/dataset:token` is answered with a bare 500 (the parse
failure raises inside the handler's catch-all `try`). -/
theorem claim_c4_auth_statuses :
    (∀ (req : Request) (s : Store) (now : Str),
      req.method ≠ Method.OPTIONS →
      (req.auth = none ∨ ∀ a, req.auth = some a → basicScheme.isPrefixOf a = false) →
      (handle_webdav req s now).rsp = rsp401 ∧
        headerVal (handle_webdav req s now).rsp.headers (strL "WWW-Authenticate") =
          some (strL "Basic realm=\"HuggingFace WebDAV\"")) ∧
    (∀ (req : Request) (s : Store) (now a : Str),
      req.method ≠ Method.OPTIONS → req.auth = some a →
      basicScheme.isPrefixOf a = true → parseAuth a = none →
      (handle_webdav req s now).rsp = rspCode 500 ∧
        (handle_webdav req s now).rsp.headers = []) := by
  constructor
  · intro req s now hm ha
    have hrsp : (handle_webdav req s now).rsp = rsp401 := by
      rcases ha with ha | ha
      · simp [handle_webdav, hm, ha]
      · rcases hauth : req.auth with _ | a
        · simp [handle_webdav, hm, hauth]
        · simp [handle_webdav, hm, hauth, ha a hauth]
    exact ⟨hrsp, by rw [hrsp]; decide⟩
  · intro req s now a hm hauth hbasic hparse
    have hrsp : (handle_webdav req s now).rsp = rspCode 500 := by
      simp [handle_webdav, hm, hauth, hbasic, hparse]
    exact ⟨hrsp, by rw [hrsp]; rfl⟩

/-- Witness for C4's amended statement, both halves: a request with no
`Authorization` header gets the challenge 401; `Basic YQ==` (payload `a`)
parses to no credential and gets 500. -/
theorem claim_c4_witness :
    ((handle_webdav
        { method := Method.PUT, path := strL "f", auth := none,
          destination := none, body := strL "b" } [] []).rsp = rsp401) ∧
    ((handle_webdav
        { method := Method.PUT, path := strL "f", auth := some (strL "Basic YQ=="),
          destination := none, body := strL "b" } [] []).rsp = rspCode 500) :=
  ⟨(claim_c4_auth_statuses.1
      { method := Method.PUT, path := strL "f", auth := none, destination := none, body := strL "b" }
      [] [] (by decide) (Or.inl rfl)).1,
   (claim_c4_auth_statuses.2
      { method := Method.PUT, path := strL "f", auth := some (strL "Basic YQ=="),
        destination := none, body := strL "b" }
      [] [] (strL "Basic YQ==") (by decide) rfl (by decide) (by decide)).1⟩

/-! Lemmas about the store model. -/

theorem lookupS_writeS_self (s : Store) (p c : Str) : lookupS (writeS s p c) p = some c := by
  simp [writeS, lookupS]

/-- C5: after `PUT x.txt` with body `hello` (201), a `GET x.txt` against
the resulting store answers 200, body exactly `hello`, and
`Content-Length: 5` — in any starting store and for any dataset. -/
theorem claim_c5_put_then_get (ctx : DavCtx) (s : Store) :
    (handle_put ctx s (strL "x.txt") (strL "hello")).rsp.status = 201 ∧
    (handle_get ctx (handle_put ctx s (strL "x.txt") (strL "hello")).store (strL "x.txt")).rsp.status = 200 ∧
    (handle_get ctx (handle_put ctx s (strL "x.txt") (strL "hello")).store (strL "x.txt")).rsp.body =
      some (strL "hello") ∧
    headerVal (handle_get ctx (handle_put ctx s (strL "x.txt") (strL "hello")).store
        (strL "x.txt")).rsp.headers (strL "Content-Length") = some (strL "5") := by
  have hstrip : stripSlashes (strL "x.txt") = strL "x.txt" := by decide
  have hdec : decode_path (strL "x.txt") = strL "x.txt" := by decide
  have hval : validate_path (strL "x.txt") = true := by decide
  have hparts : (splitChar 47 (strL "x.txt")).dropLast = [] := by decide
  have hput : handle_put ctx s (strL "x.txt") (strL "hello") =
      { rsp := rspCode 201,
        store := writeS s (repoKey ctx (strL "x.txt")) (strL "hello"),
        events := [StoreEvent.writeE (repoKey ctx (strL "x.txt")) (strL "hello"),
                   StoreEvent.invalidateE (dirname (repoKey ctx (strL "x.txt")))] } := by
    simp [handle_put, hstrip, hdec, hval, ensure_parent_dirs, hparts, ensureLoop]
  have hget : handle_get ctx (writeS s (repoKey ctx (strL "x.txt")) (strL "hello")) (strL "x.txt") =
      { rsp := { status := 200, body := some (strL "hello"),
                 headers := [(strL "Content-Type", octetStream),
                             (strL "Content-Disposition", contentDispositionVal (basename (strL "x.txt"))),
                             (strL "Accept-Ranges", strL "bytes"),
                             (strL "Content-Length", natStr (strL "hello").length)] },
        store := writeS s (repoKey ctx (strL "x.txt")) (strL "hello"),
        events := [StoreEvent.readE (repoKey ctx (strL "x.txt"))] } := by
    simp [handle_get, hstrip, hdec, hval, lookupS_writeS_self, guess_type]
  have hcl : headerVal [(strL "Content-Type", octetStream),
      (strL "Content-Disposition", contentDispositionVal (basename (strL "x.txt"))),
      (strL "Accept-Ranges", strL "bytes"),
      (strL "Content-Length", natStr (strL "hello").length)] (strL "Content-Length") =
      some (strL "5") := by decide
  refine ⟨by rw [hput]; rfl, ?_, ?_, ?_⟩
  · rw [hput]
    show (handle_get ctx (writeS s (repoKey ctx (strL "x.txt")) (strL "hello")) (strL "x.txt")).rsp.status = 200
    rw [hget]
  · rw [hput]
    show (handle_get ctx (writeS s (repoKey ctx (strL "x.txt")) (strL "hello")) (strL "x.txt")).rsp.body =
      some (strL "hello")
    rw [hget]
  · rw [hput]
    show headerVal (handle_get ctx (writeS s (repoKey ctx (strL "x.txt")) (strL "hello"))
        (strL "x.txt")).rsp.headers (strL "Content-Length") = some (strL "5")
    rw [hget]
    exact hcl

/-- C7: on MOVE, when the source object exists the handler performs,
in this order: read the source whole, run the destination's parent-marker
creation, write the destination, delete the source, invalidate the
source's parent then the destination's parent — and answers 201; the
dispatcher answers 400 when the `Destination` header is missing (or
empty) without touching the store; and a failing source read (the
modelled I/O failure) is answered 500. -/
theorem claim_c7_move_contract :
    (∀ (ctx : DavCtx) (s : Store) (src dst content : Str),
      lookupS s (repoKey ctx (decode_path (stripSlashes src))) = some content →
      (handle_move ctx s src dst).rsp.status = 201 ∧
      (handle_move ctx s src dst).events =
        StoreEvent.readE (repoKey ctx (decode_path (stripSlashes src))) ::
          (ensure_parent_dirs ctx s (decode_path (stripSlashes dst))).2 ++
          [StoreEvent.writeE (repoKey ctx (decode_path (stripSlashes dst))) content,
           StoreEvent.deleteE (repoKey ctx (decode_path (stripSlashes src))),
           StoreEvent.invalidateE (dirname (repoKey ctx (decode_path (stripSlashes src)))),
           StoreEvent.invalidateE (dirname (repoKey ctx (decode_path (stripSlashes dst))))] ∧
      (handle_move ctx s src dst).store =
        deleteS (writeS (ensure_parent_dirs ctx s (decode_path (stripSlashes dst))).1
                   (repoKey ctx (decode_path (stripSlashes dst))) content)
          (repoKey ctx (decode_path (stripSlashes src)))) ∧
    (∀ (req : Request) (s : Store) (now a : Str) (u d t : Str),
      req.method = Method.MOVE → req.auth = some a →
      basicScheme.isPrefixOf a = true → parseAuth a = some (u, d, t) →
      (req.destination = none ∨ req.destination = some []) →
      (handle_webdav req s now).rsp.status = 400 ∧
        (handle_webdav req s now).store = s ∧ (handle_webdav req s now).events = []) ∧
    (∀ (ctx : DavCtx) (s : Store) (src dst : Str),
      lookupS s (repoKey ctx (decode_path (stripSlashes src))) = none →
      (handle_move ctx s src dst).rsp.status = 500 ∧
        (handle_move ctx s src dst).store = s ∧
        (handle_move ctx s src dst).events =
          [StoreEvent.readE (repoKey ctx (decode_path (stripSlashes src)))]) := by
  refine ⟨?_, ?_, ?_⟩
  · intro ctx s src dst content h
    refine ⟨?_, ?_, ?_⟩ <;> simp [handle_move, h, rspCode]
  · intro req s now a u d t hm hauth hbasic hparse hdest
    rcases hdest with hdest | hdest <;>
      refine ⟨?_, ?_, ?_⟩ <;>
        simp [handle_webdav, hm, hauth, hbasic, hparse, hdest, rspCode]
  · intro ctx s src dst h
    refine ⟨?_, ?_, ?_⟩ <;> simp [handle_move, h, rspCode]

/-- Witness for C7: moving `x.txt` to `y/x.txt` over a one-object store
reads, writes, deletes and invalidates in the claimed order and answers
201. -/
theorem claim_c7_witness :
    (handle_move { username := strL "u", dataset := strL "d" }
        [(strL "datasets/u/d/x.txt", strL "hi")] (strL "x.txt") (strL "y/x.txt")).rsp.status = 201 :=
  (claim_c7_move_contract.1 { username := strL "u", dataset := strL "d" }
    [(strL "datasets/u/d/x.txt", strL "hi")] (strL "x.txt") (strL "y/x.txt") (strL "hi")
    (by decide)).1

theorem lookupS_deleteS_ne (s : Store) (p q : Str) (h : q ≠ p) :
    lookupS (deleteS s p) q = lookupS s q := by
  induction s with
  | nil => rfl
  | cons e t ih =>
    rcases e with ⟨k, v⟩
    simp only [deleteS, List.filter_cons] at *
    by_cases hk : k = p
    · subst hk
      have hkk : (k == k) = true := by simp
      simp only [hkk, Bool.not_true, Bool.false_eq_true, if_false]
      rw [ih]
      simp only [lookupS, if_neg (fun hh : k = q => h hh.symm)]
    · have hkp : (k == p) = false := by simp [hk]
      simp only [hkp, Bool.not_false, if_true, lookupS]
      by_cases hkq : k = q
      · simp [hkq]
      · simp only [if_neg hkq]
        exact ih

theorem lookupS_writeS_ne (s : Store) (p c q : Str) (h : q ≠ p) :
    lookupS (writeS s p c) q = lookupS s q := by
  simp only [writeS, lookupS, if_neg (fun hh : p = q => h hh.symm)]
  exact lookupS_deleteS_ne s p q h

theorem mem_writeS_iff (s : Store) (p c : Str) (e : Str × Str) :
    e ∈ writeS s p c ↔ e = (p, c) ∨ (e ∈ s ∧ e.1 ≠ p) := by
  simp only [writeS, deleteS, List.mem_cons, List.mem_filter, Bool.not_eq_eq_eq_not,
    Bool.not_true, beq_eq_false_iff_ne, ne_eq]

theorem existsS_writeS_self (s : Store) (p c : Str) : existsS (writeS s p c) p = true := by
  simp [existsS, lookupS_writeS_self]

theorem existsS_writeS_other (s : Store) (p c q : Str) (hne : q ≠ p)
    (hnp : (q ++ [47]).isPrefixOf p = false) :
    existsS (writeS s p c) q = existsS s q := by
  have hiff : isdirS (writeS s p c) q = true ↔ isdirS s q = true := by
    simp only [isdirS, List.any_eq_true]
    constructor
    · rintro ⟨e, he, hpre⟩
      rcases (mem_writeS_iff s p c e).mp he with he2 | ⟨hes, _⟩
      · subst he2
        simp only at hpre
        rw [hpre] at hnp
        cases hnp
      · exact ⟨e, hes, hpre⟩
    · rintro ⟨e, he, hpre⟩
      by_cases hep : e.1 = p
      · rw [hep] at hpre
        rw [hpre] at hnp
        cases hnp
      · exact ⟨e, (mem_writeS_iff s p c e).mpr (Or.inr ⟨he, hep⟩), hpre⟩
  have hdir : isdirS (writeS s p c) q = isdirS s q := by
    rcases Bool.eq_false_or_eq_true (isdirS s q) with hb | hb <;>
      rcases Bool.eq_false_or_eq_true (isdirS (writeS s p c) q) with hb2 | hb2 <;>
        simp_all
  simp [existsS, lookupS_writeS_ne s p c q hne, hdir]


theorem existsS_writeS_of_exists (s : Store) (p c q : Str) (h : existsS s q = true) :
    existsS (writeS s p c) q = true := by
  by_cases hqp : q = p
  · subst hqp
    exact existsS_writeS_self s q c
  · simp only [existsS, Bool.or_eq_true] at h ⊢
    rw [lookupS_writeS_ne s p c q hqp]
    rcases h with hl | hd
    · exact Or.inl hl
    · right
      simp only [isdirS, List.any_eq_true] at hd ⊢
      obtain ⟨e, hes, hpre⟩ := hd
      by_cases hep : e.1 = p
      · refine ⟨(p, c), (mem_writeS_iff s p c (p, c)).mpr (Or.inl rfl), ?_⟩
        rw [hep] at hpre
        exact hpre
      · exact ⟨e, (mem_writeS_iff s p c e).mpr (Or.inr ⟨hes, hep⟩), hpre⟩

theorem ensureLoop_preserves (root : Str) (parts : List Str) :
    ∀ (acc : Str) (s : Store) (k : Str), existsS s k = true →
      existsS (ensureLoop root s acc parts).1 k = true := by
  induction parts with
  | nil =>
    intro acc s k h
    simpa [ensureLoop] using h
  | cons part rest ih =>
    intro acc s k h
    simp only [ensureLoop]
    split
    · exact ih _ _ _ h
    · exact ih _ _ _ (existsS_writeS_of_exists s _ [] k h)

theorem ensureLoop_exists_after (root : Str) (parts : List Str) :
    ∀ (acc : Str) (s : Store) (k : Str), k ∈ keepsOf root acc parts →
      existsS (ensureLoop root s acc parts).1 k = true := by
  induction parts with
  | nil =>
    intro acc s k h
    simp [keepsOf] at h
  | cons part rest ih =>
    intro acc s k h
    simp only [keepsOf, List.mem_cons] at h
    simp only [ensureLoop]
    rcases h with h | h
    · subst h
      split
      · next hex => exact ensureLoop_preserves root rest _ _ _ hex
      · exact ensureLoop_preserves root rest _ _ _ (existsS_writeS_self s _ [])
    · split
      · exact ih _ _ _ h
      · exact ih _ _ _ h

theorem ensureLoop_writes (root : Str) (parts : List Str) :
    ∀ (acc : Str) (s : Store),
      (keepsOf root acc parts).Pairwise keepIndep →
      writesOf (ensureLoop root s acc parts).2 =
        (keepsOf root acc parts).filter (fun k => !(existsS s k)) := by
  induction parts with
  | nil =>
    intro acc s _
    simp [ensureLoop, keepsOf, writesOf]
  | cons part rest ih =>
    intro acc s hp
    simp only [keepsOf, List.pairwise_cons] at hp
    obtain ⟨hhead, htail⟩ := hp
    simp only [ensureLoop, keepsOf]
    split
    · next hex =>
      simp only [writesOf, List.filterMap_cons, writePathOf, List.filter_cons, hex,
        Bool.not_true, Bool.false_eq_true, if_false]
      exact ih _ _ htail
    · next hex =>
      have hex' : existsS s (root ++ [47] ++ dirStep acc part ++ [47] ++ keepName) = false := by
        rcases Bool.eq_false_or_eq_true
            (existsS s (root ++ [47] ++ dirStep acc part ++ [47] ++ keepName)) with hb | hb
        · exact absurd hb hex
        · exact hb
      simp only [writesOf, List.filterMap_cons, writePathOf, List.filter_cons, hex',
        Bool.not_false, if_true]
      rw [show (List.filterMap writePathOf (ensureLoop root
            (writeS s (root ++ [47] ++ dirStep acc part ++ [47] ++ keepName) [])
            (dirStep acc part) rest).2) =
          (keepsOf root (dirStep acc part) rest).filter
            (fun k => !(existsS (writeS s (root ++ [47] ++ dirStep acc part ++ [47] ++ keepName) []) k))
          from ih _ _ htail]
      congr 1
      apply List.filter_congr
      intro k hk
      have hind := hhead k hk
      rw [existsS_writeS_other s _ [] k hind.1 hind.2]

/-- C8: `_ensure_parent_dirs` on `a/b/c.txt` writes markers at exactly
`a/.keep` then `a/b/.keep` (in that order), each one only when it does not
already exist; and running it again on the resulting store writes nothing
(idempotence) — over every starting store. -/
theorem claim_c8_ensure_parent_dirs_exact_and_idempotent (s : Store) :
    writesOf (ensure_parent_dirs { username := strL "u", dataset := strL "d" } s (strL "a/b/c.txt")).2 =
      (if existsS s (strL "datasets/u/d/a/.keep") = true then [] else [strL "datasets/u/d/a/.keep"]) ++
      (if existsS s (strL "datasets/u/d/a/b/.keep") = true then [] else [strL "datasets/u/d/a/b/.keep"]) ∧
    writesOf (ensure_parent_dirs { username := strL "u", dataset := strL "d" }
        (ensure_parent_dirs { username := strL "u", dataset := strL "d" } s (strL "a/b/c.txt")).1
        (strL "a/b/c.txt")).2 = [] := by
  have hparts : (splitChar 47 (stripSlashes (strL "a/b/c.txt"))).dropLast = [[97], [98]] := by decide
  have hpair : (keepsOf (repoRoot { username := strL "u", dataset := strL "d" }) []
      [[97], [98]]).Pairwise keepIndep := by decide
  have hkeeps : keepsOf (repoRoot { username := strL "u", dataset := strL "d" }) [] [[97], [98]] =
      [strL "datasets/u/d/a/.keep", strL "datasets/u/d/a/b/.keep"] := by decide
  constructor
  · show writesOf (ensureLoop (repoRoot { username := strL "u", dataset := strL "d" }) s []
        ((splitChar 47 (stripSlashes (strL "a/b/c.txt"))).dropLast)).2 = _
    rw [hparts, ensureLoop_writes _ _ _ _ hpair, hkeeps]
    by_cases h1 : existsS s (strL "datasets/u/d/a/.keep") = true <;>
      by_cases h2 : existsS s (strL "datasets/u/d/a/b/.keep") = true <;>
        simp [List.filter_cons, h1, h2]
  · show writesOf (ensureLoop (repoRoot { username := strL "u", dataset := strL "d" })
        ((ensure_parent_dirs { username := strL "u", dataset := strL "d" } s (strL "a/b/c.txt")).1) []
        ((splitChar 47 (stripSlashes (strL "a/b/c.txt"))).dropLast)).2 = []
    rw [hparts, ensureLoop_writes _ _ _ _ hpair]
    apply List.filter_eq_nil_iff.mpr
    intro k hk
    have hx : existsS (ensure_parent_dirs { username := strL "u", dataset := strL "d" } s
        (strL "a/b/c.txt")).1 k = true := by
      show existsS (ensureLoop (repoRoot { username := strL "u", dataset := strL "d" }) s []
          ((splitChar 47 (stripSlashes (strL "a/b/c.txt"))).dropLast)).1 k = true
      rw [hparts]
      exact ensureLoop_exists_after _ _ _ _ _ hk
    simp [hx]

/-! Lemmas about `_recursive_delete`. -/

theorem mem_keysOf_iff (s : Store) (k : Str) : k ∈ keysOf s ↔ ∃ e ∈ s, e.1 = k := by
  simp [keysOf, List.mem_map]

theorem maxKeyLen_spec (s : Store) : ∀ k ∈ keysOf s, k.length ≤ maxKeyLen s := by
  induction s with
  | nil => intro k hk; simp [keysOf] at hk
  | cons e t ih =>
    intro k hk
    simp only [keysOf, List.map_cons, List.mem_cons] at hk
    simp only [maxKeyLen, List.foldr_cons]
    rcases hk with hk | hk
    · subst hk
      exact Nat.le_max_left _ _
    · exact le_trans (ih k hk) (Nat.le_max_right _ _)

theorem lookupS_isSome_of_mem_keys (s : Store) (k : Str) (h : k ∈ keysOf s) :
    (lookupS s k).isSome = true := by
  induction s with
  | nil => simp [keysOf] at h
  | cons e t ih =>
    rcases e with ⟨k1, v⟩
    simp only [keysOf, List.map_cons, List.mem_cons] at h
    simp only [lookupS]
    by_cases hk : k1 = k
    · simp [hk]
    · simp only [if_neg hk]
      rcases h with h | h
      · exact absurd h.symm hk
      · exact ih h

theorem isdirS_true_of_under (s : Store) (p k : Str) (hk : k ∈ keysOf s)
    (hu : (p ++ [47]).isPrefixOf k = true) : isdirS s p = true := by
  simp only [isdirS, List.any_eq_true]
  obtain ⟨e, hes, hek⟩ := (mem_keysOf_iff s k).mp hk
  exact ⟨e, hes, by rw [hek]; exact hu⟩

theorem properB_spec (s : Store) (h : properB s = true) :
    ∀ k1 ∈ keysOf s, ∀ k2 ∈ keysOf s, (k1 ++ [47]).isPrefixOf k2 = false := by
  simp only [properB, List.all_eq_true] at h
  intro k1 h1 k2 h2
  obtain ⟨e1, he1, hk1⟩ := (mem_keysOf_iff s k1).mp h1
  obtain ⟨e2, he2, hk2⟩ := (mem_keysOf_iff s k2).mp h2
  have := h e1 he1 e2 he2
  rw [hk1, hk2] at this
  rcases Bool.eq_false_or_eq_true ((k1 ++ [47]).isPrefixOf k2) with hb | hb
  · rw [hb] at this
    cases this
  · exact hb

theorem mem_deleteS_iff (s : Store) (p : Str) (e : Str × Str) :
    e ∈ deleteS s p ↔ e ∈ s ∧ e.1 ≠ p := by
  simp only [deleteS, List.mem_filter, Bool.not_eq_eq_eq_not, Bool.not_true,
    beq_eq_false_iff_ne, ne_eq]

theorem dropWhile_head_false (q : Nat → Bool) (l : List Nat) (b : Nat) (d : List Nat)
    (h : l.dropWhile q = b :: d) : q b = false := by
  induction l with
  | nil => simp [List.dropWhile] at h
  | cons a t ih =>
    simp only [List.dropWhile] at h
    by_cases hq : q a = true
    · rw [hq] at h
      exact ih h
    · have hq' : q a = false := by
        rcases Bool.eq_false_or_eq_true (q a) with hb | hb
        · exact absurd hb hq
        · exact hb
      rw [hq'] at h
      simp only at h
      injection h with h1 h2
      rw [← h1]
      exact hq'

theorem child_at_or_under (p k : Str) (hu : (p ++ [47]).isPrefixOf k = true) :
    k = p ++ [47] ++ firstSeg (k.drop (p.length + 1)) ∨
    ((p ++ [47] ++ firstSeg (k.drop (p.length + 1))) ++ [47]).isPrefixOf k = true := by
  obtain ⟨r, hr⟩ := List.isPrefixOf_iff_prefix.mp hu
  subst hr
  have hlen : (p ++ [47]).length = p.length + 1 := by simp
  have hdrop : ((p ++ [47]) ++ r).drop (p.length + 1) = r := by
    rw [← hlen, List.drop_left]
  rw [hdrop]
  rcases hd : r.dropWhile (fun b => !(b == 47)) with _ | ⟨b, d⟩
  · left
    have ht := List.takeWhile_append_dropWhile (p := fun b => !(b == 47)) (l := r)
    rw [hd, List.append_nil] at ht
    simp only [firstSeg, ht, List.append_assoc]
  · right
    have hb : (fun b => !(b == 47)) b = false := dropWhile_head_false _ r b d hd
    have hb47 : b = 47 := by
      simp only [Bool.not_eq_false'] at hb
      simpa using hb
    subst hb47
    apply List.isPrefixOf_iff_prefix.mpr
    refine ⟨d, ?_⟩
    have ht := List.takeWhile_append_dropWhile (p := fun b => !(b == 47)) (l := r)
    rw [hd] at ht
    conv_rhs => rw [← ht]
    simp [firstSeg, List.append_assoc]

theorem childName_mem_lsNames (s : Store) (p k : Str) (hk : k ∈ keysOf s)
    (hu : (p ++ [47]).isPrefixOf k = true) :
    (p ++ [47] ++ firstSeg (k.drop (p.length + 1))) ∈ lsNames s p := by
  simp only [lsNames, List.mem_dedup, List.mem_filterMap]
  obtain ⟨e, hes, hek⟩ := (mem_keysOf_iff s k).mp hk
  refine ⟨e, hes, ?_⟩
  rw [hek]
  simp [childNameOf, hu]

theorem mem_lsNames_length (s : Store) (p c : Str) (hc : c ∈ lsNames s p) :
    p.length + 1 ≤ c.length := by
  simp only [lsNames, List.mem_dedup, List.mem_filterMap] at hc
  obtain ⟨e, _, he⟩ := hc
  simp only [childNameOf] at he
  split at he
  · injection he with he2
    rw [← he2]
    simp only [List.length_append, List.length_cons, List.length_nil]
    omega
  · cases he

theorem recDelF_subset : ∀ (fuel : Nat) (p : Str) (s : Store) (e : Str × Str),
    e ∈ recDelF fuel p s → e ∈ s := by
  intro fuel
  induction fuel with
  | zero =>
    intro p s e he
    simpa [recDelF] using he
  | succ fuel ih =>
    intro p s e he
    simp only [recDelF] at he
    by_cases h1 : existsS s p = true
    · rw [if_pos h1] at he
      by_cases h2 : isdirS s p = true
      · rw [if_pos h2] at he
        have hfold : ∀ (cs : List Str) (s0 : Store) (e : Str × Str),
            e ∈ cs.foldl (fun acc c => recDelF fuel c acc) s0 → e ∈ s0 := by
          intro cs
          induction cs with
          | nil =>
            intro s0 e he
            simpa using he
          | cons c cs ihc =>
            intro s0 e he
            simp only [List.foldl_cons] at he
            exact ih c s0 e (ihc _ e he)
        split at he
        · exact hfold _ s e ((mem_deleteS_iff _ _ e).mp he).1
        · exact hfold _ s e he
      · rw [if_neg h2] at he
        exact ((mem_deleteS_iff s p e).mp he).1
    · rw [if_neg h1] at he
      exact he

theorem recDelFold_subset (fuel : Nat) : ∀ (cs : List Str) (s0 : Store) (e : Str × Str),
    e ∈ cs.foldl (fun acc c => recDelF fuel c acc) s0 → e ∈ s0 := by
  intro cs
  induction cs with
  | nil =>
    intro s0 e he
    simpa using he
  | cons c cs ihc =>
    intro s0 e he
    simp only [List.foldl_cons] at he
    exact recDelF_subset fuel c s0 e (ihc _ e he)

theorem recDelF_not_exists (fuel : Nat) (p : Str) (s : Store) (h : existsS s p = false) :
    recDelF fuel p s = s := by
  cases fuel with
  | zero => rfl
  | succ fuel =>
    simp only [recDelF]
    rw [if_neg (by rw [h]; exact Bool.false_ne_true)]

theorem recDelF_clears (L : Nat) : ∀ (fuel : Nat) (p : Str) (s : Store),
    (∀ k ∈ keysOf s, k.length ≤ L) →
    (∀ k1 ∈ keysOf s, ∀ k2 ∈ keysOf s, (k1 ++ [47]).isPrefixOf k2 = false) →
    L + 2 ≤ fuel + p.length →
    ∀ k ∈ keysOf (recDelF fuel p s), k ≠ p ∧ (p ++ [47]).isPrefixOf k = false := by
  intro fuel
  induction fuel with
  | zero =>
    intro p s hL hpr hf k hk
    simp only [recDelF] at hk
    have hkL := hL k hk
    constructor
    · intro hkp
      subst hkp
      omega
    · rcases Bool.eq_false_or_eq_true ((p ++ [47]).isPrefixOf k) with hb | hb
      · exfalso
        have hle := (List.isPrefixOf_iff_prefix.mp hb).length_le
        simp only [List.length_append, List.length_cons, List.length_nil] at hle
        omega
      · exact hb
  | succ fuel ih =>
    intro p s hL hpr hf k hk
    simp only [recDelF] at hk
    by_cases h1 : existsS s p = true
    case neg =>
      rw [if_neg h1] at hk
      constructor
      · intro hkp
        subst hkp
        exact h1 (by simp [existsS, lookupS_isSome_of_mem_keys s k hk])
      · rcases Bool.eq_false_or_eq_true ((p ++ [47]).isPrefixOf k) with hb | hb
        · exact absurd (by simp [existsS, isdirS_true_of_under s p k hk hb] :
            existsS s p = true) h1
        · exact hb
    case pos =>
      rw [if_pos h1] at hk
      by_cases h2 : isdirS s p = true
      case neg =>
        rw [if_neg h2] at hk
        obtain ⟨e, he, hek⟩ := (mem_keysOf_iff _ _).mp hk
        obtain ⟨hes, hep⟩ := (mem_deleteS_iff s p e).mp he
        have hks : k ∈ keysOf s := (mem_keysOf_iff _ _).mpr ⟨e, hes, hek⟩
        constructor
        · intro hkp
          subst hkp
          exact hep hek
        · rcases Bool.eq_false_or_eq_true ((p ++ [47]).isPrefixOf k) with hb | hb
          · exact absurd (isdirS_true_of_under s p k hks hb) h2
          · exact hb
      case pos =>
        rw [if_pos h2] at hk
        have hfoldclear : ∀ (cs : List Str) (s0 : Store),
            (∀ e ∈ s0, e ∈ s) →
            (∀ c ∈ cs, p.length + 1 ≤ c.length) →
            ∀ c ∈ cs, ∀ k' ∈ keysOf (cs.foldl (fun acc c => recDelF fuel c acc) s0),
              k' ≠ c ∧ (c ++ [47]).isPrefixOf k' = false := by
          intro cs
          induction cs with
          | nil =>
            intro s0 _ _ c hc
            simp at hc
          | cons c0 cs ihc =>
            intro s0 hs0 hlen c hc k' hk'
            simp only [List.foldl_cons] at hk'
            rcases List.mem_cons.mp hc with hc0 | hcs
            · subst hc0
              have hk'0 : k' ∈ keysOf (recDelF fuel c s0) := by
                obtain ⟨e, he, hek⟩ := (mem_keysOf_iff _ _).mp hk'
                exact (mem_keysOf_iff _ _).mpr ⟨e, recDelFold_subset fuel cs _ e he, hek⟩
              refine ih c s0 ?_ ?_ ?_ k' hk'0
              · intro k2 hk2
                obtain ⟨e, he, hek⟩ := (mem_keysOf_iff _ _).mp hk2
                exact hL k2 ((mem_keysOf_iff _ _).mpr ⟨e, hs0 e he, hek⟩)
              · intro k1 hm1 k2 hm2
                obtain ⟨e1, he1, hek1⟩ := (mem_keysOf_iff _ _).mp hm1
                obtain ⟨e2, he2, hek2⟩ := (mem_keysOf_iff _ _).mp hm2
                exact hpr k1 ((mem_keysOf_iff _ _).mpr ⟨e1, hs0 e1 he1, hek1⟩) k2
                  ((mem_keysOf_iff _ _).mpr ⟨e2, hs0 e2 he2, hek2⟩)
              · have := hlen c (by simp)
                omega
            · refine ihc (recDelF fuel c0 s0) ?_ ?_ c hcs k' hk'
              · intro e he
                exact hs0 e (recDelF_subset fuel c0 s0 e he)
              · intro c' hc'
                exact hlen c' (by simp [hc'])
        have hk1 : k ∈ keysOf ((lsNames s p).foldl (fun acc c => recDelF fuel c acc) s) := by
          split at hk
          · obtain ⟨e, he, hek⟩ := (mem_keysOf_iff _ _).mp hk
            exact (mem_keysOf_iff _ _).mpr ⟨e, ((mem_deleteS_iff _ _ e).mp he).1, hek⟩
          · exact hk
        have hks : k ∈ keysOf s := by
          obtain ⟨e, he, hek⟩ := (mem_keysOf_iff _ _).mp hk1
          exact (mem_keysOf_iff _ _).mpr ⟨e, recDelFold_subset fuel _ s e he, hek⟩
        constructor
        · intro hkp
          subst hkp
          simp only [isdirS, List.any_eq_true] at h2
          obtain ⟨e, hes, hpre⟩ := h2
          have hfalse := hpr k hks e.1 ((mem_keysOf_iff _ _).mpr ⟨e, hes, rfl⟩)
          rw [hfalse] at hpre
          cases hpre
        · rcases Bool.eq_false_or_eq_true ((p ++ [47]).isPrefixOf k) with hb | hb
          · exfalso
            have hc := childName_mem_lsNames s p k hks hb
            have hclear := hfoldclear (lsNames s p) s (fun e he => he)
              (fun c hcm => mem_lsNames_length s p c hcm) _ hc k hk1
            rcases child_at_or_under p k hb with heq | hunder
            · exact hclear.1 heq
            · rw [hclear.2] at hunder
              cases hunder
          · exact hb

/-- C9: DELETE is idempotent — `_recursive_delete` on a path that does not
exist leaves the store untouched and the handler still answers 204; and on
a directory of a proper store (no key both file and directory, as the real
backend guarantees) it removes every key below the directory, its own
`.keep` marker included, before the 204 is reported. -/
theorem claim_c9_delete_idempotent_and_recursive :
    (∀ (ctx : DavCtx) (s : Store) (path : Str),
      existsS s (repoKey ctx (decode_path (stripSlashes path))) = false →
      (handle_delete ctx s path).store = s ∧ (handle_delete ctx s path).rsp.status = 204) ∧
    (∀ (ctx : DavCtx) (s : Store) (path : Str),
      properB s = true →
      isdirS s (repoKey ctx (decode_path (stripSlashes path))) = true →
      (handle_delete ctx s path).rsp.status = 204 ∧
      ∀ k ∈ keysOf (handle_delete ctx s path).store,
        ((repoKey ctx (decode_path (stripSlashes path))) ++ [47]).isPrefixOf k = false) := by
  constructor
  · intro ctx s path h
    constructor
    · show recursive_delete s (repoKey ctx (decode_path (stripSlashes path))) = s
      exact recDelF_not_exists _ _ _ h
    · rfl
  · intro ctx s path hpr hdir
    constructor
    · rfl
    · intro k hk
      have hk' : k ∈ keysOf (recDelF (maxKeyLen s + 2)
          (repoKey ctx (decode_path (stripSlashes path))) s) := hk
      exact (recDelF_clears (maxKeyLen s) (maxKeyLen s + 2)
        (repoKey ctx (decode_path (stripSlashes path))) s (maxKeyLen_spec s)
        (properB_spec s hpr) (by omega) k hk').2

/-- Witness for C9: deleting the directory `dir` of a four-object store
(two nested files, the directory's marker, one unrelated file) answers
204; the hypotheses (proper store, `dir` is a directory) are checked by
evaluation. -/
theorem claim_c9_witness :
    (handle_delete { username := strL "u", dataset := strL "d" }
      [(strL "datasets/u/d/dir/f.txt", strL "x"), (strL "datasets/u/d/dir/sub/g.txt", strL "y"),
       (strL "datasets/u/d/dir/.keep", []), (strL "datasets/u/d/other.txt", strL "z")]
      (strL "dir")).rsp.status = 204 :=
  (claim_c9_delete_idempotent_and_recursive.2 { username := strL "u", dataset := strL "d" }
    [(strL "datasets/u/d/dir/f.txt", strL "x"), (strL "datasets/u/d/dir/sub/g.txt", strL "y"),
     (strL "datasets/u/d/dir/.keep", []), (strL "datasets/u/d/other.txt", strL "z")]
    (strL "dir") (by decide) (by decide)).1

/-! Lemmas about the PROPFIND classification loop. -/

theorem mem_setInsert_elim (l : List Str) (x y : Str) (h : y ∈ setInsert l x) :
    y ∈ l ∨ y = x := by
  simp only [setInsert] at h
  split at h
  · exact Or.inl h
  · rcases List.mem_append.mp h with h | h
    · exact Or.inl h
    · simp only [List.mem_singleton] at h
      exact Or.inr h

theorem mem_setInsert_self (l : List Str) (x : Str) : x ∈ setInsert l x := by
  simp only [setInsert]
  split
  · assumption
  · simp

theorem mem_setInsert_of_mem (l : List Str) (x y : Str) (h : y ∈ l) : y ∈ setInsert l x := by
  simp only [setInsert]
  split
  · exact h
  · exact List.mem_append.mpr (Or.inl h)

theorem mem_dictInsert_elim (l : List FileRow) (k : Str) (v : Nat × Str) (f : FileRow)
    (h : f ∈ dictInsert l k v) : f ∈ l ∨ f = (k, v) := by
  induction l with
  | nil =>
    simp only [dictInsert, List.mem_singleton] at h
    exact Or.inr h
  | cons e t ih =>
    rcases e with ⟨k1, v1⟩
    simp only [dictInsert] at h
    split at h
    · rcases List.mem_cons.mp h with h | h
      · exact Or.inr h
      · exact Or.inl (List.mem_cons_of_mem _ h)
    · rcases List.mem_cons.mp h with h | h
      · exact Or.inl (by rw [h]; exact List.mem_cons_self _ _)
      · rcases ih h with h | h
        · exact Or.inl (List.mem_cons_of_mem _ h)
        · exact Or.inr h

theorem key_mem_dictInsert_self (l : List FileRow) (k : Str) (v : Nat × Str) :
    k ∈ (dictInsert l k v).map Prod.fst := by
  induction l with
  | nil => simp [dictInsert]
  | cons e t ih =>
    rcases e with ⟨k1, v1⟩
    simp only [dictInsert]
    split
    · simp
    · simpa using Or.inr ih

theorem key_mem_dictInsert_of_mem (l : List FileRow) (k : Str) (v : Nat × Str) (q : Str)
    (h : q ∈ l.map Prod.fst) : q ∈ (dictInsert l k v).map Prod.fst := by
  induction l with
  | nil => simp at h
  | cons e t ih =>
    rcases e with ⟨k1, v1⟩
    simp only [List.map_cons, List.mem_cons] at h
    simp only [dictInsert]
    split
    · next heq =>
      subst heq
      rcases h with h | h
      · simp [h]
      · simpa using Or.inr h
    · rcases h with h | h
      · simp [h]
      · simpa using Or.inr (ih h)

theorem collectLoop_dirs_sound (repoP now : Str) :
    ∀ (infos : List FInfo) (ds : List Str) (fs : List FileRow),
      ∀ d ∈ (collectLoop repoP now ds fs infos).1,
        d ∈ ds ∨ ∃ i ∈ infos, i.isDir = true ∧
          d = stripSlashes (i.name.drop repoP.length) ∧
          stripSlashes (i.name.drop repoP.length) ≠ [] := by
  intro infos
  induction infos with
  | nil =>
    intro ds fs d hd
    exact Or.inl hd
  | cons i rest ih =>
    intro ds fs d hd
    simp only [collectLoop] at hd
    split at hd
    · rcases ih _ _ d hd with h | ⟨j, hj, hrest⟩
      · exact Or.inl h
      · exact Or.inr ⟨j, List.mem_cons_of_mem i hj, hrest⟩
    · next hrel =>
      split at hd
      · next hdir =>
        rcases ih _ _ d hd with h | ⟨j, hj, hrest⟩
        · rcases mem_setInsert_elim _ _ _ h with h | h
          · exact Or.inl h
          · exact Or.inr ⟨i, List.mem_cons_self i rest, hdir, h, hrel⟩
        · exact Or.inr ⟨j, List.mem_cons_of_mem i hj, hrest⟩
      · split at hd
        · rcases ih _ _ d hd with h | ⟨j, hj, hrest⟩
          · exact Or.inl h
          · exact Or.inr ⟨j, List.mem_cons_of_mem i hj, hrest⟩
        · rcases ih _ _ d hd with h | ⟨j, hj, hrest⟩
          · exact Or.inl h
          · exact Or.inr ⟨j, List.mem_cons_of_mem i hj, hrest⟩

theorem collectLoop_files_sound (repoP now : Str) :
    ∀ (infos : List FInfo) (ds : List Str) (fs : List FileRow),
      ∀ f ∈ (collectLoop repoP now ds fs infos).2,
        f ∈ fs ∨ ∃ i ∈ infos, i.isDir = false ∧
          f = (stripSlashes (i.name.drop repoP.length), i.size, i.lastModified.getD now) ∧
          stripSlashes (i.name.drop repoP.length) ≠ [] ∧
          basename (stripSlashes (i.name.drop repoP.length)) ≠ keepName := by
  intro infos
  induction infos with
  | nil =>
    intro ds fs f hf
    exact Or.inl hf
  | cons i rest ih =>
    intro ds fs f hf
    simp only [collectLoop] at hf
    split at hf
    · rcases ih _ _ f hf with h | ⟨j, hj, hrest⟩
      · exact Or.inl h
      · exact Or.inr ⟨j, List.mem_cons_of_mem i hj, hrest⟩
    · next hrel =>
      split at hf
      · rcases ih _ _ f hf with h | ⟨j, hj, hrest⟩
        · exact Or.inl h
        · exact Or.inr ⟨j, List.mem_cons_of_mem i hj, hrest⟩
      · next hdir =>
        split at hf
        · rcases ih _ _ f hf with h | ⟨j, hj, hrest⟩
          · exact Or.inl h
          · exact Or.inr ⟨j, List.mem_cons_of_mem i hj, hrest⟩
        · next hkeep =>
          rcases ih _ _ f hf with h | ⟨j, hj, hrest⟩
          · rcases mem_dictInsert_elim _ _ _ f h with h2 | h2
            · exact Or.inl h2
            · refine Or.inr ⟨i, List.mem_cons_self i rest, ?_, h2, hrel, hkeep⟩
              rcases Bool.eq_false_or_eq_true i.isDir with hb | hb
              · exact absurd hb hdir
              · exact hb
          · exact Or.inr ⟨j, List.mem_cons_of_mem i hj, hrest⟩

theorem collectLoop_dirs_mono (repoP now : Str) :
    ∀ (infos : List FInfo) (ds : List Str) (fs : List FileRow) (d : Str),
      d ∈ ds → d ∈ (collectLoop repoP now ds fs infos).1 := by
  intro infos
  induction infos with
  | nil =>
    intro ds fs d hd
    exact hd
  | cons i rest ih =>
    intro ds fs d hd
    simp only [collectLoop]
    split
    · exact ih _ _ _ hd
    · split
      · exact ih _ _ _ (mem_setInsert_of_mem _ _ _ hd)
      · split
        · exact ih _ _ _ hd
        · exact ih _ _ _ hd

theorem collectLoop_dirs_complete (repoP now : Str) :
    ∀ (infos : List FInfo) (ds : List Str) (fs : List FileRow),
      ∀ i ∈ infos, i.isDir = true → stripSlashes (i.name.drop repoP.length) ≠ [] →
        stripSlashes (i.name.drop repoP.length) ∈ (collectLoop repoP now ds fs infos).1 := by
  intro infos
  induction infos with
  | nil =>
    intro ds fs i hi
    simp at hi
  | cons j rest ih =>
    intro ds fs i hi hdir hrel
    rcases List.mem_cons.mp hi with hi | hi
    · subst hi
      simp only [collectLoop, hrel, hdir, if_true, if_false, ite_true, ite_false]
      exact collectLoop_dirs_mono repoP now rest _ _ _ (mem_setInsert_self _ _)
    · simp only [collectLoop]
      split
      · exact ih _ _ i hi hdir hrel
      · split
        · exact ih _ _ i hi hdir hrel
        · split
          · exact ih _ _ i hi hdir hrel
          · exact ih _ _ i hi hdir hrel

theorem collectLoop_files_keys_mono (repoP now : Str) :
    ∀ (infos : List FInfo) (ds : List Str) (fs : List FileRow) (q : Str),
      q ∈ fs.map Prod.fst → q ∈ ((collectLoop repoP now ds fs infos).2).map Prod.fst := by
  intro infos
  induction infos with
  | nil =>
    intro ds fs q hq
    exact hq
  | cons i rest ih =>
    intro ds fs q hq
    simp only [collectLoop]
    split
    · exact ih _ _ _ hq
    · split
      · exact ih _ _ _ hq
      · split
        · exact ih _ _ _ hq
        · exact ih _ _ _ (key_mem_dictInsert_of_mem _ _ _ _ hq)

theorem collectLoop_files_complete (repoP now : Str) :
    ∀ (infos : List FInfo) (ds : List Str) (fs : List FileRow),
      ∀ i ∈ infos, i.isDir = false → stripSlashes (i.name.drop repoP.length) ≠ [] →
        basename (stripSlashes (i.name.drop repoP.length)) ≠ keepName →
        stripSlashes (i.name.drop repoP.length) ∈
          ((collectLoop repoP now ds fs infos).2).map Prod.fst := by
  intro infos
  induction infos with
  | nil =>
    intro ds fs i hi
    simp at hi
  | cons j rest ih =>
    intro ds fs i hi hdir hrel hkeep
    rcases List.mem_cons.mp hi with hi | hi
    · subst hi
      simp only [collectLoop, hrel, hdir, hkeep, Bool.false_eq_true, if_true, if_false,
        ite_true, ite_false]
      exact collectLoop_files_keys_mono repoP now rest _ _ _
        (key_mem_dictInsert_self _ _ _)
    · simp only [collectLoop]
      split
      · exact ih _ _ i hi hdir hrel hkeep
      · split
        · exact ih _ _ i hi hdir hrel hkeep
        · split
          · exact ih _ _ i hi hdir hrel hkeep
          · exact ih _ _ i hi hdir hrel hkeep

/-- C6: every successful PROPFIND (status 207) produces the multistatus
body `PropfindOutputShape` describes — self entry first, directories
sorted lexicographically with collection type and `httpd/unix-directory`,
files sorted lexicographically with `application/octet-stream` and
content-length equal to the listed size, `.keep` markers excluded, and
every status line `HTTP/1.1 200 OK`. -/
theorem claim_c6_propfind_multistatus (ctx : DavCtx) (s : Store) (path now : Str)
    (h207 : (handle_propfind ctx s path now).rsp.status = 207) :
    PropfindOutputShape ctx s path now := by
  rw [PropfindOutputShape]
  by_cases hv : validate_path (decode_path (stripSlashes path)) = false
  · exfalso
    rw [show handle_propfind ctx s path now = { rsp := rsp400, entries := [], events := [] } from by
      simp [handle_propfind, hv]] at h207
    simp [rsp400] at h207
  · rcases hls : lsS s (if decode_path (stripSlashes path) = [] then repoRoot ctx
        else repoRoot ctx ++ 47 :: decode_path (stripSlashes path)) with _ | infos
    · exfalso
      rw [show handle_propfind ctx s path now =
          { rsp := rspCode 500, entries := [],
            events := [StoreEvent.invalidateE (if decode_path (stripSlashes path) = [] then repoRoot ctx
                else repoRoot ctx ++ 47 :: decode_path (stripSlashes path)),
              StoreEvent.listE (if decode_path (stripSlashes path) = [] then repoRoot ctx
                else repoRoot ctx ++ 47 :: decode_path (stripSlashes path))] } from by
        simp [handle_propfind, hv, hls]] at h207
      simp [rspCode] at h207
    · have hentries : (handle_propfind ctx s path now).entries =
          selfEntry (decode_path (stripSlashes path)) now ::
            (((collectLoop (repoRoot ctx) now [] [] infos).1.insertionSort strLe).map (dirEntry now) ++
             ((collectLoop (repoRoot ctx) now [] [] infos).2.insertionSort rowLe).map fileEntry) := by
        simp [handle_propfind, hv, hls]
      refine ⟨infos, (collectLoop (repoRoot ctx) now [] [] infos).1.insertionSort strLe,
        (collectLoop (repoRoot ctx) now [] [] infos).2.insertionSort rowLe,
        ?_, hentries, List.sorted_insertionSort strLe _, List.sorted_insertionSort rowLe _,
        rfl, rfl, ?_, ?_, ?_, ?_, ?_, ?_⟩
      · simpa using hls
      · intro e he
        obtain ⟨d, _, rfl⟩ := List.mem_map.mp he
        exact ⟨rfl, rfl, rfl⟩
      · intro e he
        obtain ⟨f, _, rfl⟩ := List.mem_map.mp he
        exact ⟨rfl, rfl, rfl⟩
      · intro d hd
        have hd' : d ∈ (collectLoop (repoRoot ctx) now [] [] infos).1 :=
          (List.perm_insertionSort strLe _).subset hd
        rcases collectLoop_dirs_sound _ _ infos [] [] d hd' with h | ⟨i, hi, hdir2, heq, _⟩
        · simp at h
        · exact ⟨i, hi, hdir2, heq⟩
      · intro f hf
        have hf' : f ∈ (collectLoop (repoRoot ctx) now [] [] infos).2 :=
          (List.perm_insertionSort rowLe _).subset hf
        rcases collectLoop_files_sound _ _ infos [] [] f hf' with h | ⟨i, hi, hdir2, heq, hrel2, hkeep2⟩
        · simp at h
        · refine ⟨i, hi, hdir2, heq, ?_, ?_⟩
          · rw [heq]
            rfl
          · rw [heq]
            exact hkeep2
      · intro i hi hdir2 hrel2
        exact (List.perm_insertionSort strLe _).symm.subset
          (collectLoop_dirs_complete (repoRoot ctx) now infos [] [] i hi hdir2 hrel2)
      · intro i hi hdir2 hrel2 hkeep2
        obtain ⟨f, hf, hfst⟩ := List.mem_map.mp
          (collectLoop_files_complete (repoRoot ctx) now infos [] [] i hi hdir2 hrel2 hkeep2)
        exact ⟨f, (List.perm_insertionSort rowLe _).symm.subset hf, hfst⟩

/-- Witness for C6: a PROPFIND on the collection root of a store holding a
10-byte file and one file inside a subdirectory answers 207, and the shape
theorem applies. -/
theorem claim_c6_witness :
    PropfindOutputShape { username := strL "u", dataset := strL "d" }
      [(strL "datasets/u/d/a.txt", strL "0123456789"), (strL "datasets/u/d/b/f.txt", strL "xy")]
      [] (strL "NOW") :=
  claim_c6_propfind_multistatus { username := strL "u", dataset := strL "d" }
    [(strL "datasets/u/d/a.txt", strL "0123456789"), (strL "datasets/u/d/b/f.txt", strL "xy")]
    [] (strL "NOW") (by decide)
